import Mathlib

/-!
Verification development for the companysift repository: a shallow embedding in
Lean 4 of the confidence scoring and aggregator-filtering engine
(src/scoring/confidence.py, src/scoring/url_quality.py, src/filtering/blocklist.py,
src/filtering/domain_frequency.py), together with theorems settling the
specification claims about those components.

Modelling conventions:
- Python `str` is modelled as `List Char` (ASCII view: `\w` is alphanumeric or
  underscore, `.lower()`/`.upper()` are the ASCII case maps, as on the
  repository's ASCII inputs).
- Python `float` is modelled as `ℚ`; every literal constant in the sources
  (0.4, 0.2, 0.05, ...) is exact in `ℚ`. `round(x, 2)` is modelled as rounding
  to the nearest multiple of 1/100 (ties half-up).
- Python `set` iteration order is unspecified; sets of words/chars are modelled
  as first-occurrence-deduplicated lists, and `set.pop()` as taking the head of
  that list.  This is a determinisation of the source's nondeterminism.
- `urllib.parse.urlparse(url).netloc` is modelled by `pyNetloc`, following
  CPython's `urlsplit` (strip leading C0-control/space, remove tab/CR/LF, strip
  a leading `scheme:`, take the `//`-prefixed authority up to `/?#`), returning
  `.error ()` exactly where CPython raises `ValueError` ("Invalid IPv6 URL":
  a `[` without `]` or vice versa in the authority).
- Code that can raise an uncaught Python exception is modelled in
  `Except Unit`; a caught exception is modelled by the handler's value.
-/

namespace CompanySift

/-! ## String primitives (models of Python str operations) -/

/-- Model of Python `c in "\w"` for ASCII text: alphanumeric or underscore. -/
def pyIsWordChar (c : Char) : Bool :=
  c.isAlphanum || c = '_'

/-- Model of `re.sub(r'[^\w]', ' ', s)`: every non-word character becomes a space. -/
def reSubNonWordL (l : List Char) : List Char :=
  l.map (fun c => if pyIsWordChar c then c else ' ')

/-- Model of Python `s.lower()` (ASCII). -/
def strLowerL (l : List Char) : List Char :=
  l.map Char.toLower

/-- Model of Python `s.upper()` (ASCII). -/
def strUpperL (l : List Char) : List Char :=
  l.map Char.toUpper

/-- Model of Python `s.strip()`: drop whitespace from both ends. -/
def pyStripL (l : List Char) : List Char :=
  ((l.dropWhile Char.isWhitespace).reverse.dropWhile Char.isWhitespace).reverse

/-- Model of Python `s.startswith(p)`: first argument is the string, second the lead. -/
def pyStartswith : List Char → List Char → Bool
  | _, [] => true
  | [], _ :: _ => false
  | a :: as, b :: bs => a = b && pyStartswith as bs

/-- Model of Python substring containment `needle in haystack`. -/
def pyIn (needle : List Char) : List Char → Bool
  | [] => needle.isEmpty
  | c :: rest => pyStartswith (c :: rest) needle || pyIn needle rest

/-- Model of Python `s.endswith(t)`. -/
def endsWithL (l suffi : List Char) : Bool :=
  pyStartswith l.reverse suffi.reverse

/-- Auxiliary for `pySplit`: whitespace-splitting with an accumulator. -/
def pySplitAux : List Char → List Char → List (List Char)
  | [], acc => if acc.isEmpty then [] else [acc.reverse]
  | c :: cs, acc =>
    if c.isWhitespace then
      if acc.isEmpty then pySplitAux cs [] else acc.reverse :: pySplitAux cs []
    else pySplitAux cs (c :: acc)

/-- Model of Python `s.split()`: split on whitespace runs, dropping empties. -/
def pySplit (l : List Char) : List (List Char) :=
  pySplitAux l []

/-- Auxiliary for `splitDot`. -/
def splitDotAux : List Char → List Char → List (List Char)
  | [], acc => [acc.reverse]
  | c :: cs, acc => if c = '.' then acc.reverse :: splitDotAux cs [] else splitDotAux cs (c :: acc)

/-- Model of Python `s.split('.')`: split on every dot, keeping empty pieces. -/
def splitDot (l : List Char) : List (List Char) :=
  splitDotAux l []

/-- Model of Python `'.'.join(parts)`. -/
def joinDot : List (List Char) → List Char
  | [] => []
  | [x] => x
  | x :: y :: xs => x ++ '.' :: joinDot (y :: xs)

/-- Model of Python `' '.join(parts)`. -/
def joinSpace : List (List Char) → List Char
  | [] => []
  | [x] => x
  | x :: y :: xs => x ++ ' ' :: joinSpace (y :: xs)

/-- Auxiliary for `pySet`: deduplication keeping first occurrences. -/
def pySetAux {α : Type} [DecidableEq α] (seen : List α) : List α → List α
  | [] => []
  | x :: xs => if x ∈ seen then pySetAux seen xs else x :: pySetAux (x :: seen) xs

/-- Model of a Python `set` built from a list: first-occurrence deduplication.
Iteration order of a Python set is unspecified; this is the determinisation
used throughout the development. -/
def pySet {α : Type} [DecidableEq α] (l : List α) : List α :=
  pySetAux [] l

/-- Number of positions at which the two strings agree
(`sum(1 for ca, cb in zip(a, b) if ca == cb)`). -/
def countPosEq : List Char → List Char → Nat
  | a :: as, b :: bs => (if a = b then 1 else 0) + countPosEq as bs
  | _, _ => 0

/-- Model of Python `s.replace('-', '')`. -/
def removeHyphens (l : List Char) : List Char :=
  l.filter (fun c => ¬ c = '-')

/-- Model of Python `s.replace(' ', '')`. -/
def removeSpaces (l : List Char) : List Char :=
  l.filter (fun c => ¬ c = ' ')

/-! ## Model of urllib.parse netloc extraction -/

/-- Characters legal in a URL scheme after the first (CPython `scheme_chars`). -/
def schemeChar (c : Char) : Bool :=
  c.isAlphanum || c = '+' || c = '-' || c = '.'

/-- Split a character list at the first colon, if any. -/
def splitAtColon : List Char → Option (List Char × List Char)
  | [] => none
  | c :: cs =>
    if c = ':' then some ([], cs)
    else (splitAtColon cs).map (fun p => (c :: p.1, p.2))

/-- Strip a leading `scheme:` as CPython `urlsplit` does: the first colon must
have index > 0, the first character must be an (ASCII) letter, and everything
before the colon must be a scheme character. -/
def stripScheme (url : List Char) : List Char :=
  match splitAtColon url with
  | some (before, after) =>
    (match before with
     | [] => url
     | c :: _ => if c.isAlpha && before.all schemeChar then after else url)
  | none => url

/-- Model of `urlparse(url).netloc`, with `.error ()` exactly where CPython
raises `ValueError` ("Invalid IPv6 URL"). -/
def pyNetloc (url : String) : Except Unit (List Char) :=
  let u0 := (url.data.dropWhile (fun c => c.toNat ≤ 32)).filter
    (fun c => ¬ (c = '\t' ∨ c = '\x0d' ∨ c = '\n'))
  match stripScheme u0 with
  | '/' :: '/' :: r =>
    let netloc := r.takeWhile (fun c => ¬ (c = '/' ∨ c = '?' ∨ c = '#'))
    if (( '[' ∈ netloc) ∧ ¬ ( ']' ∈ netloc)) ∨ (( ']' ∈ netloc) ∧ ¬ ( '[' ∈ netloc))
    then .error () else .ok netloc
  | _ => .ok []

/-! ## Data model (src/core/models.py, src/search/client.py) -/

/-- Model of the `Company` dataclass fields the core reads. -/
structure Company where
  company_number : String
  company_name : String
  postcode : String
deriving DecidableEq

/-- Model of `src.search.client.SearchResult` (the variant the scorer consumes;
it carries no position validation, so `position` is an arbitrary integer). -/
structure SearchResult where
  url : String
  title : String
  snippet : String
  position : Int
deriving DecidableEq

/-! ## ConfidenceScorer weights (src/scoring/confidence.py lines 22-40) -/

/-- Weight configuration for the four scoring signals. -/
structure Weights where
  domain_match : ℚ
  tld_relevance : ℚ
  search_position : ℚ
  title_match : ℚ
deriving DecidableEq

/-- Sum of the four weights. -/
def sumWeights (w : Weights) : ℚ :=
  w.domain_match + w.tld_relevance + w.search_position + w.title_match

/-- Default weights of `ConfidenceScorer.__init__`. -/
def defaultWeights : Weights :=
  { domain_match := 2/5, tld_relevance := 2/5, search_position := 1/10, title_match := 1/10 }

/-- Weight normalisation of `ConfidenceScorer.__init__`: divide by the total
only when the total is positive. -/
def normWeights (w : Weights) : Weights :=
  if 0 < sumWeights w then
    { domain_match := w.domain_match / sumWeights w,
      tld_relevance := w.tld_relevance / sumWeights w,
      search_position := w.search_position / sumWeights w,
      title_match := w.title_match / sumWeights w }
  else w

/-- The scorer's stored weights after construction (`weights or defaults`,
then normalisation). -/
def mkScorer (weights : Option Weights) : Weights :=
  normWeights (weights.getD defaultWeights)

/-! ## ConfidenceScorer._clean_company_name_for_matching (lines 42-65) -/

/-- Legal-entity suffixes stripped from a trailing word. -/
def commonSuffixes : List (List Char) :=
  ["LIMITED".data, "LTD".data, "PLC".data, "LLC".data,
   "INC".data, "CORP".data, "CO".data, "GROUP".data]

/-- Model of `_clean_company_name_for_matching`: when the word-cleaned,
upper-cased name has more than one word and its last word is a common suffix,
return the cleaned name without that word; otherwise return the original name. -/
def cleanCompanyNameForMatching (company_name : List Char) : List Char :=
  let clean_name := strUpperL (reSubNonWordL company_name)
  let words := pySplit clean_name
  if 1 < words.length then
    match words.getLast? with
    | some last_word =>
      if last_word ∈ commonSuffixes then joinSpace words.dropLast else company_name
    | none => company_name
  else company_name

/-! ## ConfidenceScorer._calculate_domain_match (lines 100-277) -/

/-- The second-level labels checked for UK-style double TLDs. -/
def ukSecondLabels : List (List Char) :=
  ["co".data, "com".data, "org".data, "net".data]

/-- Main-domain extraction of `_calculate_domain_match` lines 107-122: lower
the netloc, strip a leading `www.`, and when more than two dot-labels remain,
keep the last three for UK-style double TLDs, else the last two. -/
def mainDomain (netloc : List Char) : List Char :=
  let domain0 := strLowerL netloc
  let domain1 := if pyStartswith domain0 "www.".data then domain0.drop 4 else domain0
  let parts := splitDot domain1
  if 2 < parts.length then
    let lastPart := (parts.getLast?).getD []
    let sndLast := (parts.dropLast.getLast?).getD []
    if sndLast ∈ ukSecondLabels && lastPart ∈ ["uk".data] then
      joinDot (parts.drop (parts.length - 3))
    else
      joinDot (parts.drop (parts.length - 2))
  else domain1

/-- The approximate-edit-distance gate used at lines 152-167 and 180-195:
when the lengths differ, compute `length_diff + (|company| - positional
matches)*0.5` over the longer length; ratios above 0.2 floor the running match
ratio at `lo`, all other cases floor it at `hi`. -/
def editDistCheck (cnc dnc : List Char) (r lo hi : ℚ) : ℚ :=
  let length_diff : Nat := max cnc.length dnc.length - min cnc.length dnc.length
  if 0 < length_diff then
    let nMatches := countPosEq cnc dnc
    let edit_dist : ℚ := (length_diff : ℚ) + ((cnc.length : ℚ) - (nMatches : ℚ)) * (1/2)
    let edit_ratio : ℚ := edit_dist / ((max cnc.length dnc.length : ℕ) : ℚ)
    if 1/5 < edit_ratio then max r lo else max r hi
  else max r hi

/-- The containment / word / acronym / four-char-lead branch chain of
lines 151-176. `cwRest` is the company word set after the `pop` at line 143. -/
def dmBranch (cnc dnc : List Char) (cwRest : List (List Char)) (r : ℚ) : ℚ :=
  if pyIn cnc dnc || pyIn dnc cnc then editDistCheck cnc dnc r (3/5) (9/10)
  else if ¬ cwRest.isEmpty && cwRest.any (fun w => pyIn w dnc) then max r (7/10)
  else if 3 ≤ dnc.length && pyIn dnc cnc then max r (4/5)
  else if pyStartswith dnc (cnc.take 4) || pyStartswith cnc (dnc.take 4) then max r (1/2)
  else r

/-- Prefix-matching block of lines 179-195. -/
def dmPrefixStep (cnc dnc : List Char) (r : ℚ) : ℚ :=
  if pyStartswith dnc (cnc.take (min 4 cnc.length)) then editDistCheck cnc dnc r (3/10) (4/5)
  else r

/-- Hyphen-normalisation block of lines 197-202. -/
def dmHyphenStep (cnc dnc : List Char) (r : ℚ) : ℚ :=
  if pyIn (removeHyphens cnc) (removeHyphens dnc) || pyIn (removeHyphens dnc) (removeHyphens cnc)
  then max r (19/20) else r

/-- Acronym block of lines 204-206. -/
def dmAcronymStep (cnc dnc : List Char) (r : ℚ) : ℚ :=
  if cnc.length ≤ 4 && pyIn (strLowerL cnc) dnc then max r (9/10) else r

/-- First letters of the remaining company words (line 209). -/
def companyInitials (cwRest : List (List Char)) : List Char :=
  cwRest.filterMap (fun w => w.head?)

/-- Initialism-score computation of lines 214-225: 0.5, reduced by character-set
overlap similarity when that similarity is below 0.4 (floored at 0.2). -/
def initialsScore (cnc dnc : List Char) : ℚ :=
  let base : ℚ := 1/2
  if 0 < cnc.length && 0 < dnc.length then
    let overlap := (pySet cnc).countP (fun c => decide (c ∈ dnc))
    let similarity : ℚ := (overlap : ℚ) / ((max cnc.length dnc.length : ℕ) : ℚ)
    if similarity < 2/5 then max (1/5) (base * similarity * (3/2)) else base
  else base

/-- Initialism block of lines 208-227. -/
def dmInitialismStep (cwRest : List (List Char)) (cnc dnc : List Char) (r : ℚ) : ℚ :=
  let initials := companyInitials cwRest
  if 2 ≤ initials.length && pyIn (strLowerL initials) dnc && 2 ≤ cwRest.length then
    max r (initialsScore cnc dnc)
  else r

/-- The `(approx_distance, match_percentage)` pair of `simple_edit_distance`
(lines 233-253) for two non-empty strings. When either string is empty the
Python helper returns a bare int and the tuple unpacking at line 258 raises
`TypeError`; that case is modelled by the caller `dmBand`. -/
def simpleEditDistPair (a b : List Char) : ℚ × ℚ :=
  let length_diff : Nat := max a.length b.length - min a.length b.length
  let nMatches := countPosEq a b
  let max_len := max a.length b.length
  let match_percentage : ℚ := if 0 < max_len then (nMatches : ℚ) / ((max_len : ℕ) : ℚ) else 0
  ((length_diff : ℚ) + ((a.length : ℚ) - (nMatches : ℚ)) * (1/2), match_percentage)

/-- Moderate-confidence corrective band of lines 229-272.  Entering the band
with an empty company or domain string makes the Python code unpack a bare int
and raise an (uncaught) `TypeError`: that is the `.error ()` case. -/
def dmBand (cnc dnc : List Char) (r : ℚ) : Except Unit ℚ :=
  if 1/2 ≤ r ∧ r ≤ 3/4 then
    if cnc.isEmpty || dnc.isEmpty then .error ()
    else
      let p := simpleEditDistPair cnc dnc
      let max_length := max cnc.length dnc.length
      if 0 < max_length then
        let edit_ratio : ℚ := p.1 / ((max_length : ℕ) : ℚ)
        if 1/2 < edit_ratio then
          .ok (max (3/20) (r * (1 - min (3/5) (edit_ratio * (3/2)))))
        else if edit_ratio < 1/10 ∧ 4/5 < p.2 then
          .ok (min (19/20) (r * (11/10)))
        else .ok r
      else .ok r
  else .ok r

/-- Body of `_calculate_domain_match` after a successful netloc extraction. -/
def domainMatchBody (company_name : List Char) (netloc : List Char) : Except Unit ℚ :=
  let domain := mainDomain netloc
  let company_name_l := strLowerL (reSubNonWordL (cleanCompanyNameForMatching company_name))
  let company_words := pySet (pySplit company_name_l)
  let domain_words := (pySplit (reSubNonWordL domain)).filter (fun w => 2 < w.length)
  let nMatches := company_words.countP (fun w => decide (w ∈ domain_words))
  if company_words.isEmpty then .ok 0
  else
    let match_ratio : ℚ := (nMatches : ℚ) / (company_words.length : ℚ)
    let first_word := company_words.headD []
    let cwRest := company_words.tail
    let r1 := if pyStartswith domain first_word then min 1 (match_ratio + 1/5) else match_ratio
    let cnc := company_name_l.filter Char.isAlphanum
    let dnc := domain.filter Char.isAlphanum
    let r2 := dmBranch cnc dnc cwRest r1
    let r3 := dmPrefixStep cnc dnc r2
    let r4 := dmHyphenStep cnc dnc r3
    let r5 := dmAcronymStep cnc dnc r4
    let r6 := dmInitialismStep cwRest cnc dnc r5
    dmBand cnc dnc r6

/-- Model of `ConfidenceScorer._calculate_domain_match`: 0.0 for an empty URL
and for a netloc extraction failure (the `except (ValueError, AttributeError)`
handler); otherwise the heuristic cascade. -/
def calcDomainMatch (company : Company) (result : SearchResult) : Except Unit ℚ :=
  if result.url = "" then .ok 0
  else
    match pyNetloc result.url with
    | .error _ => .ok 0
    | .ok netloc => domainMatchBody company.company_name.data netloc

/-! ## ConfidenceScorer._calculate_tld_relevance (lines 279-324) -/

/-- Model of the UK postcode regex
`^[A-Z]{1,2}\d[A-Z\d]? ?\d[A-Z]{2}$`: tail `\d[A-Z]{2}$`. -/
def ukPostTail : List Char → Bool
  | [d, a, b] => d.isDigit && a.isUpper && b.isUpper
  | _ => false

/-- Optional-space part ` ?\d[A-Z]{2}$` of the UK postcode regex. -/
def ukPostSpace (l : List Char) : Bool :=
  ukPostTail l ||
    (match l with
     | ' ' :: rest => ukPostTail rest
     | _ => false)

/-- Optional middle character `[A-Z\d]? ?\d[A-Z]{2}$` of the UK postcode regex. -/
def ukPostMid (l : List Char) : Bool :=
  ukPostSpace l ||
    (match l with
     | c :: rest => (c.isUpper || c.isDigit) && ukPostSpace rest
     | [] => false)

/-- The part of the UK postcode regex after the leading letters: `\d[A-Z\d]? ?\d[A-Z]{2}$`. -/
def ukPostDigitPart : List Char → Bool
  | d :: rest => d.isDigit && ukPostMid rest
  | [] => false

/-- Model of `re.match(r'^[A-Z]{1,2}\d[A-Z\d]? ?\d[A-Z]{2}$', p)` as used at
line 292 (one or two leading upper-case letters). -/
def ukPostcodeMatch (l : List Char) : Bool :=
  match l with
  | a :: rest =>
    a.isUpper &&
      (ukPostDigitPart rest ||
        (match rest with
         | b :: rest2 => b.isUpper && ukPostDigitPart rest2
         | [] => false))
  | [] => false

/-- UK TLD list of line 298. -/
def ukTlds : List (List Char) :=
  [".co.uk".data, ".uk".data, ".org.uk".data, ".me.uk".data, ".net.uk".data]

/-- Country-code TLD list of line 309. -/
def countryTlds : List (List Char) :=
  [".us".data, ".ca".data, ".au".data, ".de".data, ".fr".data,
   ".jp".data, ".cn".data, ".ae".data, ".sg".data]

/-- Common generic TLD list of line 315. -/
def commonTlds : List (List Char) :=
  [".com".data, ".org".data, ".net".data, ".io".data, ".biz".data]

/-- Model of `ConfidenceScorer._calculate_tld_relevance`.  Note that the
`except` handler at line 323 returns the unknown-TLD default 0.2, not 0.0. -/
def calcTldRelevance (result : SearchResult) (company : Company) : ℚ :=
  if result.url = "" then 0
  else
    match pyNetloc result.url with
    | .error _ => 1/5
    | .ok netloc =>
      let domain := strLowerL netloc
      let is_uk_company :=
        ¬ company.postcode = "" && ukPostcodeMatch (pyStripL (strUpperL company.postcode.data))
      if ukTlds.any (fun t => endsWithL domain t) then (if is_uk_company then 1 else 4/5)
      else if is_uk_company && endsWithL domain ".in".data then 1/20
      else if is_uk_company && countryTlds.any (fun t => endsWithL domain t) then 1/10
      else if commonTlds.any (fun t => endsWithL domain t) then (if is_uk_company then 1/2 else 7/10)
      else 1/5

/-! ## ConfidenceScorer._calculate_position_score (lines 326-342) -/

/-- Model of `_calculate_position_score`. -/
def calcPositionScore (result : SearchResult) : ℚ :=
  if result.position ≤ 0 then 0
  else if result.position = 1 then 1
  else if result.position = 2 then 4/5
  else if result.position ≤ 5 then 3/5
  else if result.position ≤ 10 then 2/5
  else max 0 (7/10 - (result.position : ℚ) * (1/20))

/-! ## ConfidenceScorer._calculate_title_match (lines 344-378) -/

/-- Stop words removed before the Jaccard similarity (line 355). -/
def stopWords : List (List Char) :=
  ["the".data, "and".data, "of".data, "for".data, "a".data,
   "an".data, "in".data, "on".data, "at".data, "to".data]

/-- Model of `ConfidenceScorer._calculate_title_match`. -/
def calcTitleMatch (company : Company) (result : SearchResult) : ℚ :=
  if result.title = "" then 0
  else
    let company_name := strLowerL (reSubNonWordL company.company_name.data)
    let title := strLowerL (reSubNonWordL result.title.data)
    let company_words := pySet ((pySplit company_name).filter
      (fun w => ¬ w ∈ stopWords && 2 < w.length))
    let title_words := pySet ((pySplit title).filter
      (fun w => ¬ w ∈ stopWords && 2 < w.length))
    if company_words.isEmpty then 0
    else
      let inter := company_words.filter (fun w => w ∈ title_words)
      let union := company_words ++ title_words.filter (fun w => ¬ w ∈ company_words)
      if union.isEmpty then 0
      else
        let similarity : ℚ := (inter.length : ℚ) / (union.length : ℚ)
        if pyIn company_name title then min 1 (similarity + 3/10) else similarity

/-! ## ConfidenceScorer.calculate_score and filter_by_confidence (lines 67-98, 393-412) -/

/-- Model of Python `round(y, 2)`: nearest multiple of 1/100 (ties half-up;
CPython uses the float's binary half-even, the exact-`ℚ` idealisation here). -/
def pyRound2 (y : ℚ) : ℚ :=
  ((round (y * 100) : ℤ) : ℚ) / 100

/-- Model of `ConfidenceScorer.calculate_score`: the weighted sum of the four
sub-scores, scaled to 0-100 and rounded to 2 decimals.  `w` is the scorer's
stored (already normalised) weight configuration.  The error case is an
uncaught exception escaping `_calculate_domain_match`. -/
def calculateScore (w : Weights) (company : Company) (result : SearchResult) :
    Except Unit ℚ :=
  match calcDomainMatch company result with
  | .error e => .error e
  | .ok domain_score =>
    let confidence :=
      domain_score * w.domain_match +
      calcTldRelevance result company * w.tld_relevance +
      calcPositionScore result * w.search_position +
      calcTitleMatch company result * w.title_match
    .ok (pyRound2 (confidence * 100))

/-- Loop of `filter_by_confidence`: keep the results whose score reaches the
threshold, propagating any exception from `calculate_score`. -/
def fbcLoop (w : Weights) (company : Company) (threshold : ℚ) :
    List SearchResult → Except Unit (List SearchResult)
  | [] => .ok []
  | r :: rest =>
    match calculateScore w company r with
    | .error e => .error e
    | .ok s =>
      match fbcLoop w company threshold rest with
      | .error e => .error e
      | .ok tail => .ok (if threshold ≤ s then r :: tail else tail)

/-- Model of `ConfidenceScorer.filter_by_confidence`. -/
def filterByConfidence (w : Weights) (results : List SearchResult) (company : Company)
    (threshold : ℚ) : Except Unit (List SearchResult) :=
  if results.isEmpty then .ok [] else fbcLoop w company threshold results

/-! ## BlocklistFilter (src/filtering/blocklist.py) -/

/-- Blocklist normalisation of `BlocklistFilter.__init__`:
`[domain.lower().strip() for domain in blocklist if domain.strip()]`. -/
def mkBlocklist (blocklist : List String) : List (List Char) :=
  (blocklist.filter (fun d => ¬ (pyStripL d.data).isEmpty)).map
    (fun d => pyStripL (strLowerL d.data))

/-- Model of `BlocklistFilter._is_blocked`: empty and unparseable URLs are
never blocked; otherwise the lower-cased, `www.`-stripped netloc is compared
for an exact or dot-suffix match against each stored entry. -/
def isBlocked (bl : List (List Char)) (url : String) : Bool :=
  if url = "" then false
  else
    match pyNetloc url with
    | .error _ => false
    | .ok netloc =>
      let domain0 := strLowerL netloc
      let domain := if pyStartswith domain0 "www.".data then domain0.drop 4 else domain0
      bl.any (fun b => domain = b || endsWithL domain ( '.' :: b))

/-- Model of `BlocklistFilter.filter_results`. -/
def blocklistFilterResults (bl : List (List Char)) (results : List SearchResult) :
    List SearchResult :=
  if results.isEmpty then [] else results.filter (fun r => ! isBlocked bl r.url)

/-- Normalised domain of a candidate URL as described by the specification:
lower-cased, `www.`-stripped; `none` for an empty or unparseable URL. -/
def extractNormDomain (url : String) : Option (List Char) :=
  if url = "" then none
  else
    match pyNetloc url with
    | .error _ => none
    | .ok netloc =>
      let domain0 := strLowerL netloc
      some (if pyStartswith domain0 "www.".data then domain0.drop 4 else domain0)

/-- Modelled from the spec (section 4.2 and claim C7): a candidate is blocked
iff its normalised domain is an exact match or a dot-suffix (subdomain) match
of some (lower-cased, trimmed, non-empty) blocklist entry; a candidate whose
URL is empty or cannot be parsed is never blocked. -/
def specBlocked (blocklist : List String) (url : String) : Bool :=
  match extractNormDomain url with
  | none => false
  | some d =>
    blocklist.any (fun b =>
      ¬ (pyStripL b.data).isEmpty &&
        (d = pyStripL (strLowerL b.data) || endsWithL d ( '.' :: pyStripL (strLowerL b.data))))

/-! ## DomainFrequencyTracker (src/filtering/domain_frequency.py) -/

/-- Model of `DomainFrequencyTracker._extract_domain`: netloc, `www.` stripped,
port removed.  Propagates the `ValueError` of `urlparse` (uncaught here). -/
def extractDomain (url : String) : Except Unit (List Char) :=
  match pyNetloc url with
  | .error e => .error e
  | .ok netloc =>
    let domain := if pyStartswith netloc "www.".data then netloc.drop 4 else netloc
    .ok (domain.takeWhile (fun c => ¬ c = ':'))

/-- Tracker state: the `defaultdict` of domain counts, the `defaultdict` of
domain-to-company-set associations (sets as insertion-ordered duplicate-free
lists), and the total search counter. -/
structure TrackerState where
  domain_counts : List (List Char × Nat)
  company_domains : List (List Char × List String)
  total_searches : Nat
deriving DecidableEq

/-- A freshly constructed tracker. -/
def emptyTracker : TrackerState :=
  { domain_counts := [], company_domains := [], total_searches := 0 }

/-- Increment a domain's occurrence count (`self.domain_counts[domain] += 1`
on a `defaultdict(int)`). -/
def bumpCount : List (List Char × Nat) → List Char → List (List Char × Nat)
  | [], d => [(d, 1)]
  | (k, v) :: rest, d =>
    if k = d then (k, v + 1) :: rest else (k, v) :: bumpCount rest d

/-- Add a company name to a domain's associated-company set
(`self.company_domains[domain].add(company_name)`). -/
def addCompany : List (List Char × List String) → List Char → String →
    List (List Char × List String)
  | [], d, name => [(d, [name])]
  | (k, vs) :: rest, d, name =>
    if k = d then (k, if name ∈ vs then vs else vs ++ [name]) :: rest
    else (k, vs) :: addCompany rest d name

/-- The per-result loop of `track_search_results`.  Returns the state after
the call together with `true` when the loop completed, `false` when a domain
extraction raised (leaving the state partially updated, as in Python). -/
def trackLoop (name : String) : List SearchResult → TrackerState → TrackerState × Bool
  | [], s => (s, true)
  | r :: rest, s =>
    match extractDomain r.url with
    | .error _ => (s, false)
    | .ok d =>
      trackLoop name rest
        { s with domain_counts := bumpCount s.domain_counts d,
                 company_domains := addCompany s.company_domains d name }

/-- Model of `DomainFrequencyTracker.track_search_results`: increment
`total_searches` first, then process each result. -/
def trackSearchResults (s : TrackerState) (name : String) (rs : List SearchResult) :
    TrackerState × Bool :=
  trackLoop name rs { s with total_searches := s.total_searches + 1 }

/-- Association-list lookup for domain counts. -/
def lookupCount : List (List Char × Nat) → List Char → Option Nat
  | [], _ => none
  | (k, v) :: rest, d => if k = d then some v else lookupCount rest d

/-- A domain's occurrence count (`self.domain_counts.get(domain, 0)`). -/
def countOf (s : TrackerState) (d : List Char) : Nat :=
  (lookupCount s.domain_counts d).getD 0

/-- Model of `DomainFrequencyTracker.identify_aggregators`. -/
def identifyAggregators (s : TrackerState) (threshold : ℚ) (min_occurrences : Nat) :
    List (List Char) :=
  if s.total_searches = 0 then []
  else
    (s.domain_counts.filter (fun p =>
      decide (min_occurrences ≤ p.2) &&
        decide (threshold ≤ (p.2 : ℚ) / (s.total_searches : ℚ)))).map (fun p => p.1)

/-- The frequency computed by `DomainFrequencyTracker.get_domain_stats`:
`count / total_searches if total_searches > 0 else 0`. -/
def statsFrequency (s : TrackerState) (d : List Char) : ℚ :=
  if 0 < s.total_searches then (countOf s d : ℚ) / (s.total_searches : ℚ) else 0

/-- The domains actually processed by one `track_search_results` call: the
extracted domains of the prefix of the list before the first extraction error. -/
def okDomains : List SearchResult → List (List Char)
  | [] => []
  | r :: rest =>
    match extractDomain r.url with
    | .error _ => []
    | .ok d => d :: okDomains rest

/-- Number of occurrences of a domain in a list of domains (proof-support
definition for the counting lemmas). -/
def occCount (d : List Char) : List (List Char) → Nat
  | [] => 0
  | x :: xs => (if x = d then 1 else 0) + occCount d xs

/-- Tracker states reachable by any sequence of `track_search_results` calls
from a freshly constructed tracker. -/
inductive Reachable : TrackerState → Prop where
  | init : Reachable emptyTracker
  | step (s : TrackerState) (name : String) (rs : List SearchResult) :
      Reachable s → Reachable (trackSearchResults s name rs).1

/-- Tracker states reachable by `track_search_results` calls in which no single
call processes two candidates with the same extracted domain. -/
inductive ReachableDistinct : TrackerState → Prop where
  | init : ReachableDistinct emptyTracker
  | step (s : TrackerState) (name : String) (rs : List SearchResult) :
      ReachableDistinct s → (okDomains rs).Nodup →
      ReachableDistinct (trackSearchResults s name rs).1

/-! ## EnhancedBlocklistFilter (src/filtering/domain_frequency.py lines 251-357) -/

/-- Loop of `EnhancedBlocklistFilter._apply_static_filter`: keep the results
whose extracted domain is not in the (raw, unnormalised) static blocklist;
a domain extraction failure raises. -/
def applyStaticFilter (static : List (List Char)) :
    List SearchResult → Except Unit (List SearchResult)
  | [] => .ok []
  | r :: rest =>
    match extractDomain r.url with
    | .error e => .error e
    | .ok d =>
      match applyStaticFilter static rest with
      | .error e => .error e
      | .ok tail => .ok (if d ∈ static then tail else r :: tail)

/-- Final loop of `EnhancedBlocklistFilter._apply_dynamic_filter`: keep the
results whose extracted domain is not a currently identified aggregator. -/
def dynFilterLoop (aggr : List (List Char)) :
    List SearchResult → Except Unit (List SearchResult)
  | [] => .ok []
  | r :: rest =>
    match extractDomain r.url with
    | .error e => .error e
    | .ok d =>
      match dynFilterLoop aggr rest with
      | .error e => .error e
      | .ok tail => .ok (if d ∈ aggr then tail else r :: tail)

/-- Model of `EnhancedBlocklistFilter._apply_dynamic_filter`: track the
results (mutating the tracker even when a later step raises), re-derive the
aggregator set with the default thresholds (0.3, 3), and filter. -/
def applyDynamicFilter (st : TrackerState) (name : String) (rs : List SearchResult) :
    Except Unit (TrackerState × List SearchResult) :=
  match trackSearchResults st name rs with
  | (_, false) => .error ()
  | (st2, true) =>
    match dynFilterLoop (identifyAggregators st2 (3/10) 3) rs with
    | .error e => .error e
    | .ok kept => .ok (st2, kept)

/-- Model of `EnhancedBlocklistFilter.filter_results`: static pass, then
dynamic pass over the survivors. -/
def enhancedFilterResults (static : List (List Char)) (st : TrackerState) (name : String)
    (rs : List SearchResult) : Except Unit (TrackerState × List SearchResult) :=
  match applyStaticFilter static rs with
  | .error e => .error e
  | .ok filtered => applyDynamicFilter st name filtered

/-- One row of the `get_suspected_aggregators` report. -/
structure SuspectEntry where
  domain : List Char
  count : Nat
  frequency : ℚ
  companies : List String
deriving DecidableEq

/-- A domain's associated-company list (`list(self.company_domains[domain])`). -/
def companiesOf (s : TrackerState) (d : List Char) : List String :=
  match s.company_domains.find? (fun p => p.1 = d) with
  | some p => p.2
  | none => []

/-- Loop of `EnhancedBlocklistFilter.get_suspected_aggregators`: skip domains
in the static blocklist or in the confirmed aggregator set; for the rest,
compute `count / total_searches` (a `ZeroDivisionError`, hence `.error ()`,
when no search was tracked) and keep the domains at or above `min_suspicion`. -/
def suspectLoop (static : List (List Char)) (s : TrackerState) (min_suspicion : ℚ) :
    List (List Char × Nat) → Except Unit (List SuspectEntry)
  | [] => .ok []
  | (d, c) :: rest =>
    if d ∈ static || d ∈ identifyAggregators s (3/10) 3 then
      suspectLoop static s min_suspicion rest
    else if s.total_searches = 0 then .error ()
    else
      match suspectLoop static s min_suspicion rest with
      | .error e => .error e
      | .ok tail =>
        let f : ℚ := (c : ℚ) / (s.total_searches : ℚ)
        .ok (if min_suspicion ≤ f then
              { domain := d, count := c, frequency := f, companies := companiesOf s d } :: tail
             else tail)

/-- Model of `EnhancedBlocklistFilter.get_suspected_aggregators`, with
`suspected.sort(key=lambda x: x['frequency'], reverse=True)` modelled as a
stable descending insertion sort. -/
def getSuspectedAggregators (static : List (List Char)) (s : TrackerState)
    (min_suspicion : ℚ) : Except Unit (List SuspectEntry) :=
  match suspectLoop static s min_suspicion s.domain_counts with
  | .error e => .error e
  | .ok suspected =>
    .ok (List.insertionSort (fun a b => b.frequency ≤ a.frequency) suspected)

/-! ## URLQualityAnalyzer._analyze_domain (src/scoring/url_quality.py lines 99-124) -/

/-- Auxiliary for `wordRuns`. -/
def wordRunsAux : List Char → List Char → List (List Char)
  | [], acc => if acc.isEmpty then [] else [acc.reverse]
  | c :: cs, acc =>
    if c.isLower then wordRunsAux cs (c :: acc)
    else if acc.isEmpty then wordRunsAux cs [] else acc.reverse :: wordRunsAux cs []

/-- Model of `re.compile(r'[A-Z][a-z]+|[a-z]+').findall` applied to lower-cased
text: the maximal runs of lower-case ASCII letters. -/
def wordRuns (l : List Char) : List (List Char) :=
  wordRunsAux l []

/-- The analyzer's aggregator keyword list, exactly as in the source —
including the duplicated entries `check`, `search` and `directory`. -/
def aggregatorKeywords : List (List Char) :=
  ["company".data, "business".data, "data".data, "check".data, "directory".data,
   "search".data, "info".data, "profile".data, "register".data, "database".data,
   "browse".data, "insight".data, "report".data, "detail".data, "find".data,
   "check".data, "verify".data, "search".data, "lookup".data, "directory".data]

/-- Model of `URLQualityAnalyzer._analyze_domain`: start at 100, subtract 50
when no company name-token occurs in the domain, subtract 20 per keyword-list
entry found in the domain (the loop runs over the list, so duplicated entries
subtract twice), add the 10/5 bonus, clamp to [0, 100]. -/
def analyzeDomain (company_name domain : String) : ℚ :=
  let dl := strLowerL domain.data
  let company_words := wordRuns (strLowerL company_name.data)
  let name_match := company_words.any (fun w => pyIn w dl)
  let score1 : ℚ := if name_match then 100 else 100 - 50
  let score2 := aggregatorKeywords.foldl (fun s k => if pyIn k dl then s - 20 else s) score1
  let score3 :=
    if pyStartswith dl (removeSpaces (strLowerL company_name.data)) then score2 + 10
    else if company_words.any (fun w => pyIn w dl) then score2 + 5
    else score2
  max 0 (min 100 score3)

/-- Modelled from the spec (claim C9's reading): identical to
`analyzeDomain` except that each distinct aggregator keyword found in the
domain subtracts exactly 20 points once. -/
def claimAnalyzeDomain (company_name domain : String) : ℚ :=
  let dl := strLowerL domain.data
  let company_words := wordRuns (strLowerL company_name.data)
  let name_match := company_words.any (fun w => pyIn w dl)
  let score1 : ℚ := if name_match then 100 else 100 - 50
  let score2 := score1 - 20 * (((pySet aggregatorKeywords).countP (fun k => pyIn k dl) : ℕ) : ℚ)
  let score3 :=
    if pyStartswith dl (removeSpaces (strLowerL company_name.data)) then score2 + 10
    else if company_words.any (fun w => pyIn w dl) then score2 + 5
    else score2
  max 0 (min 100 score3)

/-- Amended closed-form domain analysis: 100, minus 50 when no name-token
occurs in the domain, minus 20 per occurrence of a keyword-list entry found in
the domain (entries listed twice count twice), plus the 10/5 bonus, clamped
to [0, 100]. -/
def amendedAnalyzeDomain (company_name domain : String) : ℚ :=
  let dl := strLowerL domain.data
  let company_words := wordRuns (strLowerL company_name.data)
  let name_match := company_words.any (fun w => pyIn w dl)
  let penalty : ℚ := if name_match then 0 else 50
  let keywordPenalty : ℚ := 20 * ((aggregatorKeywords.countP (fun k => pyIn k dl) : ℕ) : ℚ)
  let bonus : ℚ :=
    if pyStartswith dl (removeSpaces (strLowerL company_name.data)) then 10
    else if company_words.any (fun w => pyIn w dl) then 5
    else 0
  max 0 (min 100 (100 - penalty - keywordPenalty + bonus))

/-! ## Helper lemmas: bounds of the domain-match pipeline -/

theorem countPosEq_le_left (a : List Char) : ∀ b : List Char, countPosEq a b ≤ a.length := by
  induction a with
  | nil => intro b; cases b <;> simp [countPosEq]
  | cons x xs ih =>
    intro b
    cases b with
    | nil => simp [countPosEq]
    | cons y ys =>
      simp only [countPosEq, List.length_cons]
      have := ih ys
      split <;> omega

theorem pyIn_nil (l : List Char) : pyIn [] l = true := by
  cases l <;> simp [pyIn, pyStartswith, List.isEmpty]

theorem editDistCheck_cases (cnc dnc : List Char) (r lo hi : ℚ) :
    editDistCheck cnc dnc r lo hi = max r lo ∨ editDistCheck cnc dnc r lo hi = max r hi := by
  dsimp only [editDistCheck]
  split_ifs <;> simp

theorem le_editDistCheck (cnc dnc : List Char) (r lo hi : ℚ) :
    r ≤ editDistCheck cnc dnc r lo hi := by
  rcases editDistCheck_cases cnc dnc r lo hi with h | h <;> rw [h] <;> exact le_max_left _ _

theorem editDistCheck_le_one (cnc dnc : List Char) {r lo hi : ℚ}
    (hr : r ≤ 1) (hlo : lo ≤ 1) (hhi : hi ≤ 1) :
    editDistCheck cnc dnc r lo hi ≤ 1 := by
  rcases editDistCheck_cases cnc dnc r lo hi with h | h <;> rw [h]
  · exact max_le hr hlo
  · exact max_le hr hhi

theorem le_dmBranch (cnc dnc : List Char) (cw : List (List Char)) (r : ℚ) :
    r ≤ dmBranch cnc dnc cw r := by
  dsimp only [dmBranch]
  split_ifs
  · exact le_editDistCheck cnc dnc r (3/5) (9/10)
  all_goals first | exact le_max_left _ _ | exact le_refl r

theorem dmBranch_le_one (cnc dnc : List Char) (cw : List (List Char)) {r : ℚ} (hr : r ≤ 1) :
    dmBranch cnc dnc cw r ≤ 1 := by
  dsimp only [dmBranch]
  split_ifs
  · exact editDistCheck_le_one cnc dnc hr (by norm_num) (by norm_num)
  all_goals first | exact max_le hr (by norm_num) | exact hr

theorem le_dmPrefixStep (cnc dnc : List Char) (r : ℚ) : r ≤ dmPrefixStep cnc dnc r := by
  dsimp only [dmPrefixStep]
  split_ifs
  · exact le_editDistCheck cnc dnc r (3/10) (4/5)
  · exact le_refl r

theorem dmPrefixStep_le_one (cnc dnc : List Char) {r : ℚ} (hr : r ≤ 1) :
    dmPrefixStep cnc dnc r ≤ 1 := by
  dsimp only [dmPrefixStep]
  split_ifs
  · exact editDistCheck_le_one cnc dnc hr (by norm_num) (by norm_num)
  · exact hr

theorem le_dmHyphenStep (cnc dnc : List Char) (r : ℚ) : r ≤ dmHyphenStep cnc dnc r := by
  dsimp only [dmHyphenStep]
  split_ifs
  · exact le_max_left _ _
  · exact le_refl r

theorem dmHyphenStep_le_one (cnc dnc : List Char) {r : ℚ} (hr : r ≤ 1) :
    dmHyphenStep cnc dnc r ≤ 1 := by
  dsimp only [dmHyphenStep]
  split_ifs
  · exact max_le hr (by norm_num)
  · exact hr

theorem dmHyphenStep_of_empty (cnc dnc : List Char) (r : ℚ) (h : cnc = [] ∨ dnc = []) :
    19/20 ≤ dmHyphenStep cnc dnc r := by
  dsimp only [dmHyphenStep]
  have hc : (pyIn (removeHyphens cnc) (removeHyphens dnc) ||
      pyIn (removeHyphens dnc) (removeHyphens cnc)) = true := by
    rcases h with h | h <;> rw [h] <;> simp [removeHyphens, pyIn_nil]
  rw [if_pos hc]
  exact le_max_right _ _

theorem le_dmAcronymStep (cnc dnc : List Char) (r : ℚ) : r ≤ dmAcronymStep cnc dnc r := by
  dsimp only [dmAcronymStep]
  split_ifs
  · exact le_max_left _ _
  · exact le_refl r

theorem dmAcronymStep_le_one (cnc dnc : List Char) {r : ℚ} (hr : r ≤ 1) :
    dmAcronymStep cnc dnc r ≤ 1 := by
  dsimp only [dmAcronymStep]
  split_ifs
  · exact max_le hr (by norm_num)
  · exact hr

theorem initialsScore_nonneg (cnc dnc : List Char) : 0 ≤ initialsScore cnc dnc := by
  dsimp only [initialsScore]
  split_ifs
  · exact le_trans (by norm_num) (le_max_left _ _)
  · norm_num
  · norm_num

theorem initialsScore_le_one (cnc dnc : List Char) : initialsScore cnc dnc ≤ 1 := by
  dsimp only [initialsScore]
  split_ifs with h1 h2
  · exact max_le (by norm_num) (by nlinarith)
  · norm_num
  · norm_num

theorem le_dmInitialismStep (cw : List (List Char)) (cnc dnc : List Char) (r : ℚ) :
    r ≤ dmInitialismStep cw cnc dnc r := by
  dsimp only [dmInitialismStep]
  split_ifs
  · exact le_max_left _ _
  · exact le_refl r

theorem dmInitialismStep_le_one (cw : List (List Char)) (cnc dnc : List Char) {r : ℚ}
    (hr : r ≤ 1) : dmInitialismStep cw cnc dnc r ≤ 1 := by
  dsimp only [dmInitialismStep]
  split_ifs
  · exact max_le hr (initialsScore_le_one cnc dnc)
  · exact hr

theorem simpleEditDistPair_fst_nonneg (a b : List Char) : 0 ≤ (simpleEditDistPair a b).1 := by
  dsimp only [simpleEditDistPair]
  have h1 : (countPosEq a b : ℚ) ≤ (a.length : ℚ) := by
    exact_mod_cast countPosEq_le_left a b
  have h2 : (0:ℚ) ≤ ((max a.length b.length - min a.length b.length : ℕ) : ℚ) := by positivity
  nlinarith

theorem dmBand_ok {cnc dnc : List Char} {r : ℚ} (h0 : 0 ≤ r) (h1 : r ≤ 1)
    (h : (cnc.isEmpty = false ∧ dnc.isEmpty = false) ∨ ¬ (1/2 ≤ r ∧ r ≤ 3/4)) :
    ∃ q, dmBand cnc dnc r = .ok q ∧ 0 ≤ q ∧ q ≤ 1 := by
  dsimp only [dmBand]
  by_cases hband : 1/2 ≤ r ∧ r ≤ 3/4
  · rw [if_pos hband]
    rcases h with ⟨he1, he2⟩ | hc
    · have hne : ¬ ((cnc.isEmpty || dnc.isEmpty) = true) := by
        rw [he1, he2]; simp
      rw [if_neg hne]
      have hp1 : 0 ≤ (simpleEditDistPair cnc dnc).1 := simpleEditDistPair_fst_nonneg cnc dnc
      split_ifs with hm hgt hlt
      · have her : 0 ≤ (simpleEditDistPair cnc dnc).1 / ((max cnc.length dnc.length : ℕ) : ℚ) :=
          div_nonneg hp1 (by positivity)
        refine ⟨_, rfl, le_trans (by norm_num) (le_max_left _ _), ?_⟩
        have hmin0 : 0 ≤ min (3/5 : ℚ)
            ((simpleEditDistPair cnc dnc).1 / ((max cnc.length dnc.length : ℕ) : ℚ) * (3/2)) :=
          le_min (by norm_num) (by positivity)
        refine max_le (by norm_num) ?_
        nlinarith [hband.1, hband.2]
      · refine ⟨_, rfl, le_min (by norm_num) (by positivity), ?_⟩
        exact le_trans (min_le_left _ _) (by norm_num)
      · exact ⟨r, rfl, h0, h1⟩
      · exact ⟨r, rfl, h0, h1⟩
    · exact absurd hband hc
  · rw [if_neg hband]
    exact ⟨r, rfl, h0, h1⟩

theorem dmPipeline_ok (cw : List (List Char)) (domain fw cnc dnc : List Char) {r0 : ℚ}
    (h0 : 0 ≤ r0) (h1 : r0 ≤ 1) :
    ∃ q, dmBand cnc dnc (dmInitialismStep cw cnc dnc (dmAcronymStep cnc dnc
      (dmHyphenStep cnc dnc (dmPrefixStep cnc dnc (dmBranch cnc dnc cw
        (if pyStartswith domain fw then min 1 (r0 + 1/5) else r0)))))) = .ok q ∧
      0 ≤ q ∧ q ≤ 1 := by
  have hr1a : 0 ≤ (if pyStartswith domain fw then min 1 (r0 + 1/5) else r0) := by
    split_ifs
    · exact le_min (by norm_num) (by linarith)
    · exact h0
  have hr1b : (if pyStartswith domain fw then min 1 (r0 + 1/5) else r0) ≤ 1 := by
    split_ifs
    · exact min_le_left _ _
    · exact h1
  set r1 := (if pyStartswith domain fw then min 1 (r0 + 1/5) else r0) with hr1
  set r2 := dmBranch cnc dnc cw r1 with hr2
  have hr2a : 0 ≤ r2 := le_trans hr1a (le_dmBranch cnc dnc cw r1)
  have hr2b : r2 ≤ 1 := dmBranch_le_one cnc dnc cw hr1b
  set r3 := dmPrefixStep cnc dnc r2 with hr3
  have hr3a : 0 ≤ r3 := le_trans hr2a (le_dmPrefixStep cnc dnc r2)
  have hr3b : r3 ≤ 1 := dmPrefixStep_le_one cnc dnc hr2b
  set r4 := dmHyphenStep cnc dnc r3 with hr4
  have hr4a : 0 ≤ r4 := le_trans hr3a (le_dmHyphenStep cnc dnc r3)
  have hr4b : r4 ≤ 1 := dmHyphenStep_le_one cnc dnc hr3b
  set r5 := dmAcronymStep cnc dnc r4 with hr5
  have hr5a : 0 ≤ r5 := le_trans hr4a (le_dmAcronymStep cnc dnc r4)
  have hr5b : r5 ≤ 1 := dmAcronymStep_le_one cnc dnc hr4b
  set r6 := dmInitialismStep cw cnc dnc r5 with hr6
  have hr6a : 0 ≤ r6 := le_trans hr5a (le_dmInitialismStep cw cnc dnc r5)
  have hr6b : r6 ≤ 1 := dmInitialismStep_le_one cw cnc dnc hr5b
  by_cases he : cnc = [] ∨ dnc = []
  · have h95 : 19/20 ≤ r4 := dmHyphenStep_of_empty cnc dnc r3 he
    have h95b : 19/20 ≤ r6 := by
      calc (19/20 : ℚ) ≤ r4 := h95
      _ ≤ r5 := le_dmAcronymStep cnc dnc r4
      _ ≤ r6 := le_dmInitialismStep cw cnc dnc r5
    exact dmBand_ok hr6a hr6b (Or.inr (fun hb => by linarith [hb.2]))
  · push_neg at he
    have he1 : cnc.isEmpty = false := by
      cases cnc
      · exact absurd rfl he.1
      · rfl
    have he2 : dnc.isEmpty = false := by
      cases dnc
      · exact absurd rfl he.2
      · rfl
    exact dmBand_ok hr6a hr6b (Or.inl ⟨he1, he2⟩)

theorem domainMatchBody_ok (name netloc : List Char) :
    ∃ q, domainMatchBody name netloc = .ok q ∧ 0 ≤ q ∧ q ≤ 1 := by
  dsimp only [domainMatchBody]
  split
  · exact ⟨0, rfl, le_refl 0, by norm_num⟩
  · next hcw =>
    have hlen : 0 <
        (pySet (pySplit (strLowerL (reSubNonWordL (cleanCompanyNameForMatching name))))).length := by
      cases h : pySet (pySplit (strLowerL (reSubNonWordL (cleanCompanyNameForMatching name)))) with
      | nil => rw [h] at hcw; exact absurd rfl hcw
      | cons a l => simp
    have h0 : (0:ℚ) ≤
        ((pySet (pySplit (strLowerL (reSubNonWordL (cleanCompanyNameForMatching name))))).countP
          (fun w => decide (w ∈ (pySplit (reSubNonWordL (mainDomain netloc))).filter
            (fun w => 2 < w.length))) : ℚ) /
        ((pySet (pySplit (strLowerL (reSubNonWordL (cleanCompanyNameForMatching name))))).length : ℚ) :=
      div_nonneg (by positivity) (by positivity)
    have h1 : ((pySet (pySplit (strLowerL (reSubNonWordL (cleanCompanyNameForMatching name))))).countP
          (fun w => decide (w ∈ (pySplit (reSubNonWordL (mainDomain netloc))).filter
            (fun w => 2 < w.length))) : ℚ) /
        ((pySet (pySplit (strLowerL (reSubNonWordL (cleanCompanyNameForMatching name))))).length : ℚ) ≤ 1 := by
      rw [div_le_one (by exact_mod_cast hlen)]
      exact_mod_cast List.countP_le_length _
    exact dmPipeline_ok _ _ _ _ _ h0 h1

theorem calcDomainMatch_ok (c : Company) (r : SearchResult) :
    ∃ q, calcDomainMatch c r = .ok q ∧ 0 ≤ q ∧ q ≤ 1 := by
  unfold calcDomainMatch
  by_cases hu : r.url = ""
  · rw [if_pos hu]
    exact ⟨0, rfl, le_refl 0, by norm_num⟩
  · rw [if_neg hu]
    cases h : pyNetloc r.url with
    | error e => exact ⟨0, rfl, le_refl 0, by norm_num⟩
    | ok netloc => exact domainMatchBody_ok _ _

theorem calcTldRelevance_mem (r : SearchResult) (c : Company) :
    0 ≤ calcTldRelevance r c ∧ calcTldRelevance r c ≤ 1 := by
  unfold calcTldRelevance
  by_cases hu : r.url = ""
  · rw [if_pos hu]; norm_num
  · rw [if_neg hu]
    cases h : pyNetloc r.url with
    | error e => norm_num
    | ok netloc =>
      dsimp only
      split_ifs <;> norm_num

theorem calcPositionScore_mem (r : SearchResult) :
    0 ≤ calcPositionScore r ∧ calcPositionScore r ≤ 1 := by
  unfold calcPositionScore
  split_ifs with h1 h2 h3 h4 h5
  · norm_num
  · norm_num
  · norm_num
  · norm_num
  · norm_num
  · constructor
    · exact le_max_left 0 _
    · refine max_le (by norm_num) ?_
      have h11 : (11 : ℤ) ≤ r.position := by omega
      have h11q : (11 : ℚ) ≤ (r.position : ℚ) := by exact_mod_cast h11
      linarith

theorem calcTitleMatch_mem (c : Company) (r : SearchResult) :
    0 ≤ calcTitleMatch c r ∧ calcTitleMatch c r ≤ 1 := by
  dsimp only [calcTitleMatch]
  split_ifs with h1 h2 h3 h4
  · norm_num
  · norm_num
  · norm_num
  all_goals
    set cw := pySet ((pySplit (strLowerL (reSubNonWordL c.company_name.data))).filter
      (fun w => ¬ w ∈ stopWords && 2 < w.length)) with hcw
    set tw := pySet ((pySplit (strLowerL (reSubNonWordL r.title.data))).filter
      (fun w => ¬ w ∈ stopWords && 2 < w.length)) with htw
    have hul : 0 < (cw ++ tw.filter (fun w => ¬ w ∈ cw)).length := by
      cases hc : cw ++ tw.filter (fun w => ¬ w ∈ cw) with
      | nil => rw [hc] at h3; exact absurd rfl h3
      | cons a l => simp
    have hle : (cw.filter (fun w => w ∈ tw)).length ≤
        (cw ++ tw.filter (fun w => ¬ w ∈ cw)).length := by
      calc (cw.filter (fun w => w ∈ tw)).length ≤ cw.length := List.length_filter_le _ _
      _ ≤ (cw ++ tw.filter (fun w => ¬ w ∈ cw)).length := by
          rw [List.length_append]; omega
    have hs0 : (0:ℚ) ≤ ((cw.filter (fun w => w ∈ tw)).length : ℚ) /
        ((cw ++ tw.filter (fun w => ¬ w ∈ cw)).length : ℚ) :=
      div_nonneg (by positivity) (by positivity)
    have hs1 : ((cw.filter (fun w => w ∈ tw)).length : ℚ) /
        ((cw ++ tw.filter (fun w => ¬ w ∈ cw)).length : ℚ) ≤ 1 := by
      rw [div_le_one (by exact_mod_cast hul)]
      exact_mod_cast hle
  · exact ⟨le_min (by norm_num) (by linarith), min_le_left _ _⟩
  · exact ⟨hs0, hs1⟩

theorem normWeights_props (w : Weights) (hdm : 0 ≤ w.domain_match) (htl : 0 ≤ w.tld_relevance)
    (hsp : 0 ≤ w.search_position) (htm : 0 ≤ w.title_match) :
    0 ≤ (normWeights w).domain_match ∧ 0 ≤ (normWeights w).tld_relevance ∧
      0 ≤ (normWeights w).search_position ∧ 0 ≤ (normWeights w).title_match ∧
      sumWeights (normWeights w) ≤ 1 := by
  unfold normWeights
  split_ifs with h
  · have hne : sumWeights w ≠ 0 := ne_of_gt h
    refine ⟨div_nonneg hdm (le_of_lt h), div_nonneg htl (le_of_lt h),
      div_nonneg hsp (le_of_lt h), div_nonneg htm (le_of_lt h), ?_⟩
    have : sumWeights
        { domain_match := w.domain_match / sumWeights w,
          tld_relevance := w.tld_relevance / sumWeights w,
          search_position := w.search_position / sumWeights w,
          title_match := w.title_match / sumWeights w } = 1 := by
      simp only [sumWeights] at *
      field_simp
    rw [this]
  · have hz : sumWeights w ≤ 0 := le_of_not_lt h
    have : sumWeights w = 0 := le_antisymm hz (by simp only [sumWeights]; positivity)
    refine ⟨hdm, htl, hsp, htm, ?_⟩
    rw [this]
    norm_num

theorem pyRound2_mem {y : ℚ} (h0 : 0 ≤ y) (h1 : y ≤ 100) :
    0 ≤ pyRound2 y ∧ pyRound2 y ≤ 100 := by
  unfold pyRound2
  have hl : (0:ℤ) ≤ round (y * 100) := by
    rw [round_eq]
    exact Int.floor_nonneg.mpr (by linarith)
  have hu : round (y * 100) ≤ 10000 := by
    rw [round_eq]
    have : (⌊y * 100 + 1/2⌋ : ℤ) < 10001 := Int.floor_lt.mpr (by push_cast; linarith)
    omega
  constructor
  · exact div_nonneg (by exact_mod_cast hl) (by norm_num)
  · rw [div_le_iff (by norm_num : (0:ℚ) < 100)]
    calc ((round (y * 100) : ℤ) : ℚ) ≤ 10000 := by exact_mod_cast hu
    _ = 100 * 100 := by norm_num

/-! ## Claim C1 -/

/-- Claim C1: for every company, every candidate search result (including
candidates with an empty URL, a malformed URL, an empty title, or position 0)
and every caller-supplied configuration of non-negative weights,
`ConfidenceScorer.calculate_score` returns a value in the closed interval
[0, 100]. -/
theorem claim_c1_score_in_range (w : Weights) (hdm : 0 ≤ w.domain_match)
    (htl : 0 ≤ w.tld_relevance) (hsp : 0 ≤ w.search_position) (htm : 0 ≤ w.title_match)
    (company : Company) (result : SearchResult) :
    ∃ s, calculateScore (normWeights w) company result = .ok s ∧ 0 ≤ s ∧ s ≤ 100 := by
  obtain ⟨d, hd, hd0, hd1⟩ := calcDomainMatch_ok company result
  obtain ⟨ht0, ht1⟩ := calcTldRelevance_mem result company
  obtain ⟨hp0, hp1⟩ := calcPositionScore_mem result
  obtain ⟨hm0, hm1⟩ := calcTitleMatch_mem company result
  obtain ⟨hw1, hw2, hw3, hw4, hwsum⟩ := normWeights_props w hdm htl hsp htm
  simp only [sumWeights] at hwsum
  have hconf0 : 0 ≤ d * (normWeights w).domain_match +
      calcTldRelevance result company * (normWeights w).tld_relevance +
      calcPositionScore result * (normWeights w).search_position +
      calcTitleMatch company result * (normWeights w).title_match := by
    have := mul_nonneg hd0 hw1
    have := mul_nonneg ht0 hw2
    have := mul_nonneg hp0 hw3
    have := mul_nonneg hm0 hw4
    linarith
  have hconf1 : d * (normWeights w).domain_match +
      calcTldRelevance result company * (normWeights w).tld_relevance +
      calcPositionScore result * (normWeights w).search_position +
      calcTitleMatch company result * (normWeights w).title_match ≤ 1 := by
    have e1 := mul_le_of_le_one_left hw1 hd1
    have e2 := mul_le_of_le_one_left hw2 ht1
    have e3 := mul_le_of_le_one_left hw3 hp1
    have e4 := mul_le_of_le_one_left hw4 hm1
    linarith
  unfold calculateScore
  rw [hd]
  obtain ⟨ha, hb⟩ := pyRound2_mem (y := (d * (normWeights w).domain_match +
      calcTldRelevance result company * (normWeights w).tld_relevance +
      calcPositionScore result * (normWeights w).search_position +
      calcTitleMatch company result * (normWeights w).title_match) * 100)
    (by linarith) (by linarith)
  exact ⟨_, rfl, ha, hb⟩

/-- Witness for claim C1 at a concrete weight configuration, company and a
malformed-URL candidate with position 0. -/
theorem claim_c1_score_in_range_witness :
    ∃ s, calculateScore (normWeights
        { domain_match := 1, tld_relevance := 1, search_position := 1, title_match := 1 })
      { company_number := "1", company_name := "ACME SOFTWARE LIMITED", postcode := "SW1A 1AA" }
      { url := "http://[", title := "", snippet := "", position := 0 } = .ok s ∧
      0 ≤ s ∧ s ≤ 100 :=
  claim_c1_score_in_range _ zero_le_one zero_le_one zero_le_one zero_le_one _ _

/-! ## Claim C2 -/

/-- Claim C2 (amended): `calculate_score` never raises for malformed input, and
a parsing failure degrades `domain_match` and `title_match` to 0.0 and (for an
empty URL) `tld_relevance` to 0.0 — but for a non-empty unparseable URL
`tld_relevance` is degraded to 0.2, the unknown-TLD default, not to 0.0. -/
theorem claim_c2_failure_semantics (w : Weights) (company : Company) (result : SearchResult) :
    (∃ s, calculateScore w company result = .ok s) ∧
    (pyNetloc result.url = .error () → calcDomainMatch company result = .ok 0) ∧
    (result.url = "" →
      calcDomainMatch company result = .ok 0 ∧ calcTldRelevance result company = 0) ∧
    (result.url ≠ "" → pyNetloc result.url = .error () →
      calcTldRelevance result company = 1/5) ∧
    (result.title = "" → calcTitleMatch company result = 0) := by
  refine ⟨?_, ?_, ?_, ?_, ?_⟩
  · obtain ⟨d, hd, _, _⟩ := calcDomainMatch_ok company result
    unfold calculateScore
    rw [hd]
    exact ⟨_, rfl⟩
  · intro h
    unfold calcDomainMatch
    split_ifs with hu
    · rfl
    · rw [h]
  · intro h
    constructor
    · unfold calcDomainMatch
      rw [if_pos h]
    · unfold calcTldRelevance
      rw [if_pos h]
  · intro hne h
    unfold calcTldRelevance
    rw [if_neg hne, h]
  · intro h
    unfold calcTitleMatch
    rw [if_pos h]

/-- Witness for the amended claim C2, discharging its hypotheses at the
concrete unparseable URL `http://[` and an empty title. -/
theorem claim_c2_failure_semantics_witness :
    calcDomainMatch { company_number := "1", company_name := "X", postcode := "" }
        { url := "http://[", title := "", snippet := "", position := 1 } = .ok 0 ∧
    calcTldRelevance { url := "http://[", title := "", snippet := "", position := 1 }
        { company_number := "1", company_name := "X", postcode := "" } = 1/5 ∧
    calcTitleMatch { company_number := "1", company_name := "X", postcode := "" }
        { url := "http://[", title := "", snippet := "", position := 1 } = 0 :=
  ⟨(claim_c2_failure_semantics defaultWeights _ _).2.1 rfl,
   (claim_c2_failure_semantics defaultWeights _ _).2.2.2.1 (by decide) rfl,
   (claim_c2_failure_semantics defaultWeights _ _).2.2.2.2 rfl⟩

/-- Claim C2 counterexample: for the non-empty unparseable URL `http://[`
(CPython raises `ValueError: Invalid IPv6 URL` inside `urlparse`), the
`tld_relevance` sub-score is 0.2, not the claimed 0.0. -/
theorem claim_c2_counterexample :
    pyNetloc "http://[" = .error () ∧
    calcTldRelevance { url := "http://[", title := "t", snippet := "", position := 1 }
        { company_number := "1", company_name := "X", postcode := "" } = 1/5 ∧
    (1/5 : ℚ) ≠ 0 := by
  refine ⟨rfl, rfl, by norm_num⟩

/-! ## Claim C5 -/

/-- Claim C5 counterexample: the all-zero weight configuration is non-negative,
but construction skips normalisation when the total is not positive, so the
stored weights sum to 0, not 1. -/
theorem claim_c5_counterexample :
    ¬ sumWeights (normWeights
        { domain_match := 0, tld_relevance := 0, search_position := 0, title_match := 0 }) = 1 := by
  norm_num [normWeights, sumWeights]

/-- Claim C5 (amended): for every caller-supplied weight configuration with
positive sum (in particular every non-negative, not-all-zero one), the stored
weights sum to exactly 1 after construction; the all-zero configuration is
stored unnormalised with sum 0. -/
theorem claim_c5_weights_normalised (w : Weights) (h : 0 < sumWeights w) :
    sumWeights (normWeights w) = 1 := by
  unfold normWeights
  rw [if_pos h]
  have hne : sumWeights w ≠ 0 := ne_of_gt h
  simp only [sumWeights] at *
  field_simp

/-- Witness for the amended claim C5. -/
theorem claim_c5_weights_normalised_witness :
    0 < sumWeights
        { domain_match := 1, tld_relevance := 0, search_position := 0, title_match := 0 } ∧
    sumWeights (normWeights
        { domain_match := 1, tld_relevance := 0, search_position := 0, title_match := 0 }) = 1 :=
  ⟨by norm_num [sumWeights], claim_c5_weights_normalised _ (by norm_num [sumWeights])⟩

theorem domainMatchBody_eval (name netloc dom cnc dnc fw : List Char)
    (cw cwRest dw : List (List Char)) (n N : ℕ)
    (hdom : mainDomain netloc = dom)
    (hcw : pySet (pySplit (strLowerL (reSubNonWordL (cleanCompanyNameForMatching name)))) = cw)
    (hdw : (pySplit (reSubNonWordL dom)).filter (fun w => 2 < w.length) = dw)
    (hcnc : (strLowerL (reSubNonWordL (cleanCompanyNameForMatching name))).filter
      Char.isAlphanum = cnc)
    (hdnc : dom.filter Char.isAlphanum = dnc)
    (hne : cw.isEmpty = false)
    (hn : cw.countP (fun w => decide (w ∈ dw)) = n)
    (hN : cw.length = N)
    (hfw : cw.headD [] = fw)
    (hrest : cw.tail = cwRest) :
    domainMatchBody name netloc =
      dmBand cnc dnc (dmInitialismStep cwRest cnc dnc (dmAcronymStep cnc dnc
        (dmHyphenStep cnc dnc (dmPrefixStep cnc dnc (dmBranch cnc dnc cwRest
          (if pyStartswith dom fw then min 1 ((n : ℚ) / (N : ℚ) + 1/5)
           else (n : ℚ) / (N : ℚ))))))) := by
  subst hdom hcw hdw hcnc hdnc hn hN hfw hrest
  dsimp only [domainMatchBody]
  rw [hne]
  simp

set_option maxRecDepth 8000 in
/-- Claim C4: for company "ACME SOFTWARE LIMITED" with postcode "SW1A 1AA" and
the candidate `https://acmesoftware.co.uk`, title "Acme Software Ltd",
position 1, `calculate_score` with the scorer's default weights returns 93,
which is at least 80. -/
theorem claim_c4_acme_scenario :
    ∃ s, calculateScore (mkScorer none)
        { company_number := "12345678", company_name := "ACME SOFTWARE LIMITED",
          postcode := "SW1A 1AA" }
        { url := "https://acmesoftware.co.uk", title := "Acme Software Ltd",
          snippet := "", position := 1 } = .ok s ∧ (80 : ℚ) ≤ s := by
  have hbody := domainMatchBody_eval "ACME SOFTWARE LIMITED".data "acmesoftware.co.uk".data
    "acmesoftware.co.uk".data "acmesoftware".data "acmesoftwarecouk".data "acme".data
    ["acme".data, "software".data] ["software".data] ["acmesoftware".data] 0 2
    (by decide) (by decide) (by decide) (by decide) (by decide) (by decide)
    (by decide) (by decide) (by decide) (by decide)
  have e1 : (if pyStartswith "acmesoftware.co.uk".data "acme".data then
      min 1 (((0:ℕ) : ℚ) / ((2:ℕ) : ℚ) + 1/5) else ((0:ℕ) : ℚ) / ((2:ℕ) : ℚ)) = 1/5 := by
    rw [if_pos (by decide)]
    norm_num
  have eED : ∀ r lo hi : ℚ,
      editDistCheck "acmesoftware".data "acmesoftwarecouk".data r lo hi = max r lo := by
    intro r lo hi
    norm_num [editDistCheck, countPosEq]
  have e2 : dmBranch "acmesoftware".data "acmesoftwarecouk".data ["software".data]
      (1/5) = 3/5 := by
    dsimp only [dmBranch]
    rw [if_pos (by decide), eED]
    norm_num [max_def]
  have e3 : dmPrefixStep "acmesoftware".data "acmesoftwarecouk".data (3/5) = 3/5 := by
    dsimp only [dmPrefixStep]
    rw [if_pos (by decide), eED]
    norm_num [max_def]
  have e4 : dmHyphenStep "acmesoftware".data "acmesoftwarecouk".data (3/5) = 19/20 := by
    dsimp only [dmHyphenStep]
    rw [if_pos (by decide)]
    norm_num [max_def]
  have e5 : dmAcronymStep "acmesoftware".data "acmesoftwarecouk".data (19/20) = 19/20 := by
    dsimp only [dmAcronymStep]
    rw [if_neg (by decide)]
  have e6 : dmInitialismStep ["software".data] "acmesoftware".data "acmesoftwarecouk".data
      (19/20) = 19/20 := by
    dsimp only [dmInitialismStep]
    rw [if_neg (by decide)]
  have e7 : dmBand "acmesoftware".data "acmesoftwarecouk".data (19/20) = .ok (19/20) := by
    dsimp only [dmBand]
    rw [if_neg (by norm_num)]
  have hdm : calcDomainMatch
      { company_number := "12345678", company_name := "ACME SOFTWARE LIMITED",
        postcode := "SW1A 1AA" }
      { url := "https://acmesoftware.co.uk", title := "Acme Software Ltd",
        snippet := "", position := 1 } = .ok (19/20) := by
    have h0 : calcDomainMatch
        { company_number := "12345678", company_name := "ACME SOFTWARE LIMITED",
          postcode := "SW1A 1AA" }
        { url := "https://acmesoftware.co.uk", title := "Acme Software Ltd",
          snippet := "", position := 1 } =
        domainMatchBody "ACME SOFTWARE LIMITED".data "acmesoftware.co.uk".data := rfl
    rw [h0, hbody, e1, e2, e3, e4, e5, e6, e7]
  have htld : calcTldRelevance
      { url := "https://acmesoftware.co.uk", title := "Acme Software Ltd",
        snippet := "", position := 1 }
      { company_number := "12345678", company_name := "ACME SOFTWARE LIMITED",
        postcode := "SW1A 1AA" } = 1 := rfl
  have hpos : calcPositionScore
      { url := "https://acmesoftware.co.uk", title := "Acme Software Ltd",
        snippet := "", position := 1 } = 1 := rfl
  have htit0 : calcTitleMatch
      { company_number := "12345678", company_name := "ACME SOFTWARE LIMITED",
        postcode := "SW1A 1AA" }
      { url := "https://acmesoftware.co.uk", title := "Acme Software Ltd",
        snippet := "", position := 1 } = ((2:ℕ) : ℚ) / ((4:ℕ) : ℚ) := rfl
  have htit : calcTitleMatch
      { company_number := "12345678", company_name := "ACME SOFTWARE LIMITED",
        postcode := "SW1A 1AA" }
      { url := "https://acmesoftware.co.uk", title := "Acme Software Ltd",
        snippet := "", position := 1 } = 1/2 := by
    rw [htit0]
    norm_num
  have hw : mkScorer none =
      { domain_match := 2/5, tld_relevance := 2/5, search_position := 1/10,
        title_match := 1/10 } := by
    norm_num [mkScorer, normWeights, defaultWeights, sumWeights, Weights.mk.injEq]
  refine ⟨93, ?_, by norm_num⟩
  rw [hw]
  unfold calculateScore
  rw [hdm]
  dsimp only
  rw [htld, hpos, htit]
  norm_num [pyRound2, round_eq]

/-! ## Claim C3 -/

/-- Claim C3: `identify_aggregators(t, m)` returns exactly the tracked domains
whose raw occurrence count is at least `m` and whose frequency
(count / total searches) is at least `t`; with zero total searches the call
returns the empty set and the stats frequency computation yields 0.0 instead
of raising a division error. -/
theorem claim_c3_identify_aggregators (s : TrackerState) (t : ℚ) (m : ℕ) (d : List Char) :
    (s.total_searches = 0 →
      identifyAggregators s t m = [] ∧ statsFrequency s d = 0) ∧
    (s.total_searches ≠ 0 →
      (d ∈ identifyAggregators s t m ↔
        ∃ c, (d, c) ∈ s.domain_counts ∧ m ≤ c ∧
          t ≤ (c : ℚ) / (s.total_searches : ℚ))) := by
  constructor
  · intro h
    constructor
    · unfold identifyAggregators
      rw [if_pos h]
    · unfold statsFrequency
      rw [if_neg (by omega)]
  · intro h
    unfold identifyAggregators
    rw [if_neg h]
    simp only [List.mem_map, List.mem_filter, Bool.and_eq_true, decide_eq_true_eq]
    constructor
    · rintro ⟨⟨a, b⟩, ⟨hmem, h1, h2⟩, rfl⟩
      exact ⟨b, hmem, h1, h2⟩
    · rintro ⟨c, hmem, h1, h2⟩
      exact ⟨⟨d, c⟩, ⟨hmem, h1, h2⟩, rfl⟩

/-- Witness for claim C3 at the freshly constructed tracker (zero total
searches). -/
theorem claim_c3_identify_aggregators_witness :
    identifyAggregators emptyTracker (1/2) 1 = [] ∧
    statsFrequency emptyTracker "x.com".data = 0 :=
  (claim_c3_identify_aggregators emptyTracker (1/2) 1 "x.com".data).1 rfl

/-! ## Claim C6 -/

theorem lookupCount_bump (l : List (List Char × Nat)) (e d : List Char) :
    (lookupCount (bumpCount l e) d).getD 0 =
      (lookupCount l d).getD 0 + (if d = e then 1 else 0) := by
  induction l with
  | nil =>
    dsimp [bumpCount, lookupCount]
    by_cases h : e = d
    · rw [if_pos h, if_pos h.symm]
      rfl
    · rw [if_neg h, if_neg (fun hde => h hde.symm)]
      rfl
  | cons kv rest ih =>
    obtain ⟨k, v⟩ := kv
    dsimp [bumpCount]
    by_cases hk : k = e
    · rw [if_pos hk]
      dsimp [lookupCount]
      by_cases hd : k = d
      · rw [if_pos hd, if_pos hd]
        have : d = e := by rw [← hd, hk]
        rw [if_pos this]
        rfl
      · rw [if_neg hd, if_neg hd]
        have : ¬ d = e := fun hde => hd (by rw [hk, ← hde])
        rw [if_neg this]
        rfl
    · rw [if_neg hk]
      dsimp [lookupCount]
      by_cases hd : k = d
      · rw [if_pos hd, if_pos hd]
        have : ¬ d = e := fun hde => hk (by rw [hd, hde])
        rw [if_neg this]
        omega
      · rw [if_neg hd, if_neg hd]
        exact ih

theorem trackLoop_total (name : String) (rs : List SearchResult) :
    ∀ s : TrackerState, (trackLoop name rs s).1.total_searches = s.total_searches := by
  induction rs with
  | nil => intro s; rfl
  | cons r rest ih =>
    intro s
    cases h : extractDomain r.url with
    | error e => simp [trackLoop, h]
    | ok d =>
      simp only [trackLoop, h]
      exact ih _

theorem trackLoop_count (name : String) (rs : List SearchResult) (d : List Char) :
    ∀ s : TrackerState,
      countOf (trackLoop name rs s).1 d = countOf s d + occCount d (okDomains rs) := by
  induction rs with
  | nil => intro s; simp [trackLoop, okDomains, occCount]
  | cons r rest ih =>
    intro s
    cases h : extractDomain r.url with
    | error e => simp [trackLoop, okDomains, h, occCount]
    | ok dd =>
      simp only [trackLoop, okDomains, h, occCount]
      rw [ih]
      have hb : countOf
          { s with
            domain_counts := bumpCount s.domain_counts dd,
            company_domains := addCompany s.company_domains dd name } d =
          countOf s d + (if d = dd then 1 else 0) := by
        unfold countOf
        exact lookupCount_bump s.domain_counts dd d
      rw [hb]
      by_cases hde : d = dd
      · rw [if_pos hde, if_pos hde.symm]
        omega
      · rw [if_neg hde, if_neg (fun hdd => hde hdd.symm)]
        omega

theorem occCount_eq_zero {d : List Char} : ∀ {l : List (List Char)}, ¬ d ∈ l → occCount d l = 0 := by
  intro l
  induction l with
  | nil => intro _; rfl
  | cons x xs ih =>
    intro h
    rw [List.mem_cons, not_or] at h
    dsimp [occCount]
    rw [if_neg (fun hxd => h.1 hxd.symm), ih h.2]

theorem occCount_le_one_of_nodup {d : List Char} :
    ∀ {l : List (List Char)}, l.Nodup → occCount d l ≤ 1 := by
  intro l
  induction l with
  | nil => intro _; simp [occCount]
  | cons x xs ih =>
    intro h
    rw [List.nodup_cons] at h
    dsimp [occCount]
    by_cases hxd : x = d
    · rw [if_pos hxd]
      subst hxd
      rw [occCount_eq_zero h.1]
    · rw [if_neg hxd]
      simpa using ih h.2

/-- Claim C6 counterexample: one `track_search_results` call whose two
candidates share the domain `x.com` produces a reachable state with occurrence
count 2 but total search count 1, violating the claimed invariant (the
domain's frequency is 2.0 > 1.0). -/
theorem claim_c6_counterexample :
    Reachable (trackSearchResults emptyTracker "A"
      [ { url := "https://x.com/a", title := "", snippet := "", position := 1 },
        { url := "https://x.com/b", title := "", snippet := "", position := 2 } ]).1 ∧
    ¬ (countOf (trackSearchResults emptyTracker "A"
        [ { url := "https://x.com/a", title := "", snippet := "", position := 1 },
          { url := "https://x.com/b", title := "", snippet := "", position := 2 } ]).1
        "x.com".data ≤
      (trackSearchResults emptyTracker "A"
        [ { url := "https://x.com/a", title := "", snippet := "", position := 1 },
          { url := "https://x.com/b", title := "", snippet := "", position := 2 } ]).1.total_searches) :=
  ⟨Reachable.step _ _ _ Reachable.init, by decide⟩

/-- Claim C6 (amended): in every tracker state reachable by
`track_search_results` calls in which no single call processes two candidates
with the same extracted domain, every domain's occurrence count is at most the
total search count. -/
theorem claim_c6_count_le_total (s : TrackerState) (h : ReachableDistinct s) (d : List Char) :
    countOf s d ≤ s.total_searches := by
  induction h with
  | init => simp [countOf, emptyTracker, lookupCount]
  | step s0 name rs hre hnd ih =>
    unfold trackSearchResults
    rw [trackLoop_count, trackLoop_total]
    have h1 : occCount d (okDomains rs) ≤ 1 := occCount_le_one_of_nodup hnd
    have h2 : countOf { s0 with total_searches := s0.total_searches + 1 } d = countOf s0 d := rfl
    rw [h2]
    dsimp only
    omega

/-- Witness for the amended claim C6: a one-call distinct-domain trace. -/
theorem claim_c6_count_le_total_witness :
    countOf (trackSearchResults emptyTracker "A"
        [ { url := "https://x.com/a", title := "", snippet := "", position := 1 } ]).1
      "x.com".data ≤
    (trackSearchResults emptyTracker "A"
        [ { url := "https://x.com/a", title := "", snippet := "", position := 1 } ]).1.total_searches :=
  claim_c6_count_le_total _
    (ReachableDistinct.step _ _ _ ReachableDistinct.init (by decide)) _

/-! ## Claim C7 -/

theorem mkBlocklist_any (bl : List String) (dom : List Char) :
    (mkBlocklist bl).any (fun b => dom = b || endsWithL dom ( '.' :: b)) =
    bl.any (fun b => ¬ (pyStripL b.data).isEmpty &&
      (dom = pyStripL (strLowerL b.data) ||
        endsWithL dom ( '.' :: pyStripL (strLowerL b.data)))) := by
  induction bl with
  | nil => rfl
  | cons b tl ih =>
    simp only [mkBlocklist] at ih ⊢
    simp only [List.filter_cons]
    simp at ih
    by_cases hb : pyStripL b.data = []
    · simp [hb, ih]
    · simp [hb, ih]

theorem isBlocked_eq_spec (bl : List String) (url : String) :
    isBlocked (mkBlocklist bl) url = specBlocked bl url := by
  by_cases hu : url = ""
  · simp [isBlocked, specBlocked, extractNormDomain, hu]
  · cases h : pyNetloc url with
    | error e => simp [isBlocked, specBlocked, extractNormDomain, hu, h]
    | ok netloc =>
      simp only [isBlocked, specBlocked, extractNormDomain, hu, h, if_neg, if_false,
        ite_false, eq_self_iff_true]
      exact mkBlocklist_any bl _

/-- Claim C7: `BlocklistFilter.filter_results` keeps exactly the candidates
whose normalised (lower-cased, `www.`-stripped) domain is neither an exact
match nor a dot-suffix match of any blocklist entry; matching is
case-insensitive on both sides, and a candidate whose URL is empty or cannot
be parsed is never blocked. -/
theorem claim_c7_blocklist_filter :
    (∀ (blocklist : List String) (results : List SearchResult),
      blocklistFilterResults (mkBlocklist blocklist) results =
        results.filter (fun r => ! specBlocked blocklist r.url)) ∧
    isBlocked (mkBlocklist ["BLOCKED.CO.UK"]) "https://api.blocked.co.uk/x" = true ∧
    isBlocked (mkBlocklist ["blocked.co.uk"]) "https://api.blocked.co.uk/x" = true ∧
    isBlocked (mkBlocklist ["blocked.co.uk"]) "https://BLOCKED.CO.UK/x" = true ∧
    isBlocked (mkBlocklist ["blocked.co.uk"]) "https://notblocked.co.uk" = false ∧
    (∀ (bl : List (List Char)) (url : String),
      pyNetloc url = .error () → isBlocked bl url = false) ∧
    (∀ bl : List (List Char), isBlocked bl "" = false) := by
  refine ⟨?_, by decide, by decide, by decide, by decide, ?_, ?_⟩
  · intro blocklist results
    unfold blocklistFilterResults
    split_ifs with he
    · have : results = [] := by
        cases results
        · rfl
        · exact absurd he (by simp)
      rw [this]
      rfl
    · exact List.filter_congr (fun r _ => by rw [isBlocked_eq_spec])
  · intro bl url h
    unfold isBlocked
    split_ifs with hu
    · rfl
    · rw [h]
  · intro bl
    rfl

/-- Witness for claim C7, discharging the unparseable-URL and empty-URL
hypotheses at concrete inputs. -/
theorem claim_c7_blocklist_filter_witness :
    isBlocked (mkBlocklist ["x.com"]) "http://[" = false ∧
    isBlocked (mkBlocklist ["x.com"]) "" = false :=
  ⟨claim_c7_blocklist_filter.2.2.2.2.2.1 _ "http://[" rfl,
   claim_c7_blocklist_filter.2.2.2.2.2.2 _⟩

/-! ## Claim C9 -/

theorem foldl_keyword_penalty (dl : List Char) :
    ∀ (ks : List (List Char)) (init : ℚ),
      ks.foldl (fun s k => if pyIn k dl then s - 20 else s) init =
        init - 20 * ((ks.countP (fun k => pyIn k dl) : ℕ) : ℚ) := by
  intro ks
  induction ks with
  | nil => intro init; simp
  | cons k kt ih =>
    intro init
    rw [List.foldl_cons, List.countP_cons]
    by_cases hk : pyIn k dl = true
    · rw [if_pos hk, ih]
      simp only [hk, if_true]
      push_cast
      ring
    · rw [if_neg hk, ih]
      simp [hk]

/-- Claim C9 (amended): the URL Quality Analyzer's domain sub-analysis equals:
start at 100, subtract 50 if no company name-token appears in the domain,
subtract 20 per occurrence of a keyword-list entry found in the domain — the
list holds `check`, `search` and `directory` twice, so each of those subtracts
40 — add 10 if the domain starts with the space-stripped company name (else 5
if any name-token appears), and clamp to [0, 100]. -/
theorem claim_c9_domain_analysis (company_name domain : String) :
    analyzeDomain company_name domain = amendedAnalyzeDomain company_name domain := by
  dsimp only [analyzeDomain, amendedAnalyzeDomain]
  rw [foldl_keyword_penalty]
  split_ifs <;> ring_nf

/-- Claim C9 counterexample: for company name "check" and domain "check.com",
the source subtracts 40 for the keyword `check` (it appears twice in the
keyword list), giving 70; the claimed 20-per-keyword formula gives 90. -/
theorem claim_c9_counterexample :
    analyzeDomain "check" "check.com" = 70 ∧
    claimAnalyzeDomain "check" "check.com" = 90 ∧ (70 : ℚ) ≠ 90 := by
  refine ⟨?_, ?_, by norm_num⟩
  · dsimp only [analyzeDomain]
    rw [foldl_keyword_penalty]
    rw [if_pos (by decide), if_pos (by decide)]
    rw [show aggregatorKeywords.countP
        (fun k => pyIn k (strLowerL "check.com".data)) = 2 from by decide]
    norm_num [max_def, min_def]
  · dsimp only [claimAnalyzeDomain]
    rw [if_pos (by decide), if_pos (by decide)]
    rw [show (pySet aggregatorKeywords).countP
        (fun k => pyIn k (strLowerL "check.com".data)) = 1 from by decide]
    norm_num [max_def, min_def]

/-! ## Claim C10 -/

theorem fbcLoop_sublist (w : Weights) (company : Company) (t : ℚ) :
    ∀ (rs out : List SearchResult), fbcLoop w company t rs = .ok out → out.Sublist rs := by
  intro rs
  induction rs with
  | nil =>
    intro out h
    dsimp [fbcLoop] at h
    injection h with h
    subst h
    exact List.Sublist.refl []
  | cons r rest ih =>
    intro out h
    dsimp [fbcLoop] at h
    cases hs : calculateScore w company r with
    | error e => rw [hs] at h; simp at h
    | ok sc =>
      rw [hs] at h
      cases ht : fbcLoop w company t rest with
      | error e => rw [ht] at h; simp at h
      | ok tail =>
        rw [ht] at h
        dsimp at h
        injection h with h
        subst h
        have hsub := ih tail ht
        by_cases hts : t ≤ sc
        · rw [if_pos hts]
          exact hsub.cons₂ r
        · rw [if_neg hts]
          exact hsub.cons r

theorem applyStaticFilter_sublist (static : List (List Char)) :
    ∀ (rs out : List SearchResult), applyStaticFilter static rs = .ok out → out.Sublist rs := by
  intro rs
  induction rs with
  | nil =>
    intro out h
    dsimp [applyStaticFilter] at h
    injection h with h
    subst h
    exact List.Sublist.refl []
  | cons r rest ih =>
    intro out h
    dsimp [applyStaticFilter] at h
    cases hd : extractDomain r.url with
    | error e => rw [hd] at h; simp at h
    | ok d =>
      rw [hd] at h
      cases ht : applyStaticFilter static rest with
      | error e => rw [ht] at h; simp at h
      | ok tail =>
        rw [ht] at h
        dsimp at h
        injection h with h
        subst h
        have hsub := ih tail ht
        by_cases hmem : d ∈ static
        · rw [if_pos hmem]
          exact hsub.cons r
        · rw [if_neg hmem]
          exact hsub.cons₂ r

theorem dynFilterLoop_sublist (aggr : List (List Char)) :
    ∀ (rs out : List SearchResult), dynFilterLoop aggr rs = .ok out → out.Sublist rs := by
  intro rs
  induction rs with
  | nil =>
    intro out h
    dsimp [dynFilterLoop] at h
    injection h with h
    subst h
    exact List.Sublist.refl []
  | cons r rest ih =>
    intro out h
    dsimp [dynFilterLoop] at h
    cases hd : extractDomain r.url with
    | error e => rw [hd] at h; simp at h
    | ok d =>
      rw [hd] at h
      cases ht : dynFilterLoop aggr rest with
      | error e => rw [ht] at h; simp at h
      | ok tail =>
        rw [ht] at h
        dsimp at h
        injection h with h
        subst h
        have hsub := ih tail ht
        by_cases hmem : d ∈ aggr
        · rw [if_pos hmem]
          exact hsub.cons r
        · rw [if_neg hmem]
          exact hsub.cons₂ r

/-- Claim C10: each candidate-list filtering operation —
`BlocklistFilter.filter_results`, `ConfidenceScorer.filter_by_confidence` and
`EnhancedBlocklistFilter.filter_results` — returns a subsequence of its input
list (every survivor is an input element, relative order preserved, nothing
duplicated, modified or created). -/
theorem claim_c10_filters_sublist :
    (∀ (bl : List (List Char)) (rs : List SearchResult),
      (blocklistFilterResults bl rs).Sublist rs) ∧
    (∀ (w : Weights) (rs : List SearchResult) (company : Company) (t : ℚ)
        (out : List SearchResult),
      filterByConfidence w rs company t = .ok out → out.Sublist rs) ∧
    (∀ (static : List (List Char)) (st : TrackerState) (name : String)
        (rs : List SearchResult) (st2 : TrackerState) (out : List SearchResult),
      enhancedFilterResults static st name rs = .ok (st2, out) → out.Sublist rs) := by
  refine ⟨?_, ?_, ?_⟩
  · intro bl rs
    unfold blocklistFilterResults
    split_ifs with he
    · exact List.nil_sublist rs
    · exact List.filter_sublist rs
  · intro w rs company t out h
    unfold filterByConfidence at h
    split_ifs at h with he
    · injection h with h
      subst h
      exact List.nil_sublist rs
    · exact fbcLoop_sublist w company t rs out h
  · intro static st name rs st2 out h
    unfold enhancedFilterResults at h
    cases hsf : applyStaticFilter static rs with
    | error e => rw [hsf] at h; simp at h
    | ok filtered =>
      rw [hsf] at h
      dsimp at h
      unfold applyDynamicFilter at h
      cases htr : trackSearchResults st name filtered with
      | mk st3 flag =>
        rw [htr] at h
        cases flag with
        | false => simp at h
        | true =>
          dsimp only at h
          cases hdf : dynFilterLoop (identifyAggregators st3 (3/10) 3) filtered with
          | error e => rw [hdf] at h; simp at h
          | ok kept =>
            rw [hdf] at h
            dsimp at h
            injection h with h
            have hout : kept = out := congrArg Prod.snd h
            subst hout
            exact (dynFilterLoop_sublist _ filtered _ hdf).trans
              (applyStaticFilter_sublist static rs filtered hsf)

/-- Witness for claim C10, discharging its result hypotheses at concrete
inputs. -/
theorem claim_c10_filters_sublist_witness :
    (blocklistFilterResults (mkBlocklist ["x.com"]) []).Sublist [] ∧
    List.Sublist ([] : List SearchResult) [] ∧
    List.Sublist ([] : List SearchResult) [] :=
  ⟨claim_c10_filters_sublist.1 _ [],
   claim_c10_filters_sublist.2.1 defaultWeights []
     { company_number := "1", company_name := "X", postcode := "" } 50 [] rfl,
   claim_c10_filters_sublist.2.2 [] emptyTracker "A" []
     { domain_counts := [], company_domains := [], total_searches := 1 } [] rfl⟩

/-! ## Claim C8 -/

theorem suspectLoop_ok (static : List (List Char)) (s : TrackerState) (m : ℚ)
    (h : s.total_searches ≠ 0) :
    ∀ counts : List (List Char × Nat),
      ∃ lst, suspectLoop static s m counts = .ok lst ∧
        ∀ d : List Char,
          (∃ e ∈ lst, SuspectEntry.domain e = d) ↔
          ∃ c, (d, c) ∈ counts ∧ ¬ d ∈ static ∧
            ¬ d ∈ identifyAggregators s (3/10) 3 ∧
            m ≤ (c : ℚ) / (s.total_searches : ℚ) := by
  intro counts
  induction counts with
  | nil =>
    refine ⟨[], rfl, fun d => ?_⟩
    simp
  | cons p rest ih =>
    obtain ⟨k, c⟩ := p
    obtain ⟨lst, hlst, hiff⟩ := ih
    dsimp only [suspectLoop]
    by_cases hskip : (k ∈ static || k ∈ identifyAggregators s (3/10) 3) = true
    · rw [if_pos hskip]
      refine ⟨lst, hlst, fun d => ?_⟩
      rw [hiff d]
      constructor
      · rintro ⟨c2, hc2, hns, hna, hm⟩
        exact ⟨c2, List.mem_cons_of_mem _ hc2, hns, hna, hm⟩
      · rintro ⟨c2, hc2, hns, hna, hm⟩
        rcases List.mem_cons.mp hc2 with heq | hmem
        · have hdk : d = k := congrArg Prod.fst heq
          subst hdk
          simp only [Bool.or_eq_true, decide_eq_true_eq] at hskip
          rcases hskip with hsk | hsk
          · exact absurd hsk hns
          · exact absurd hsk hna
        · exact ⟨c2, hmem, hns, hna, hm⟩
    · rw [if_neg hskip, if_neg h, hlst]
      dsimp only
      simp only [Bool.or_eq_true, decide_eq_true_eq, not_or] at hskip
      by_cases hm2 : m ≤ (c : ℚ) / (s.total_searches : ℚ)
      · rw [if_pos hm2]
        refine ⟨_, rfl, fun d => ?_⟩
        constructor
        · rintro ⟨e, he, hed⟩
          rcases List.mem_cons.mp he with rfl | hmem
          · exact ⟨c, by rw [← hed]; exact List.mem_cons_self _ _,
              by rw [← hed]; exact hskip.1, by rw [← hed]; exact hskip.2, hm2⟩
          · obtain ⟨c2, hc2, hns, hna, hm⟩ := (hiff d).mp ⟨e, hmem, hed⟩
            exact ⟨c2, List.mem_cons_of_mem _ hc2, hns, hna, hm⟩
        · rintro ⟨c2, hc2, hns, hna, hm⟩
          rcases List.mem_cons.mp hc2 with heq | hmem
          · have hdk : d = k := congrArg Prod.fst heq
            subst hdk
            exact ⟨_, List.mem_cons_self _ _, rfl⟩
          · obtain ⟨e, he, hed⟩ := (hiff d).mpr ⟨c2, hmem, hns, hna, hm⟩
            exact ⟨e, List.mem_cons_of_mem _ he, hed⟩
      · rw [if_neg hm2]
        refine ⟨lst, rfl, fun d => ?_⟩
        rw [hiff d]
        constructor
        · rintro ⟨c2, hc2, hns, hna, hm⟩
          exact ⟨c2, List.mem_cons_of_mem _ hc2, hns, hna, hm⟩
        · rintro ⟨c2, hc2, hns, hna, hm⟩
          rcases List.mem_cons.mp hc2 with heq | hmem
          · have hdk : d = k := congrArg Prod.fst heq
            have hck : c2 = c := congrArg Prod.snd heq
            subst hdk
            subst hck
            exact absurd hm hm2
          · exact ⟨c2, hmem, hns, hna, hm⟩

/-- Claim C8 (amended): for a tracker with at least one search,
`get_suspected_aggregators(min_suspicion)` returns exactly the tracked domains
outside the static blocklist that are not confirmed aggregators (count ≥ 3 and
frequency ≥ 0.3) and whose frequency is at least `min_suspicion` — i.e.
frequency in [min_suspicion, 0.3) or frequency ≥ 0.3 with count < 3 — sorted
in descending order of frequency. -/
theorem claim_c8_suspected_aggregators (static : List (List Char)) (s : TrackerState)
    (m : ℚ) (h : s.total_searches ≠ 0) :
    ∃ out, getSuspectedAggregators static s m = .ok out ∧
      (∀ d : List Char,
        (∃ e ∈ out, SuspectEntry.domain e = d) ↔
        ∃ c, (d, c) ∈ s.domain_counts ∧ ¬ d ∈ static ∧
          ¬ d ∈ identifyAggregators s (3/10) 3 ∧
          m ≤ (c : ℚ) / (s.total_searches : ℚ)) ∧
      out.Pairwise (fun a b => b.frequency ≤ a.frequency) := by
  obtain ⟨lst, hlst, hiff⟩ := suspectLoop_ok static s m h s.domain_counts
  refine ⟨List.insertionSort (fun a b => b.frequency ≤ a.frequency) lst, ?_, ?_, ?_⟩
  · unfold getSuspectedAggregators
    rw [hlst]
  · intro d
    rw [← hiff d]
    constructor
    · rintro ⟨e, he, hed⟩
      exact ⟨e, (List.perm_insertionSort _ lst).mem_iff.mp he, hed⟩
    · rintro ⟨e, he, hed⟩
      exact ⟨e, (List.perm_insertionSort _ lst).mem_iff.mpr he, hed⟩
  · haveI : IsTotal SuspectEntry (fun a b => b.frequency ≤ a.frequency) :=
      ⟨fun a b => le_total b.frequency a.frequency⟩
    haveI : IsTrans SuspectEntry (fun a b => b.frequency ≤ a.frequency) :=
      ⟨fun a b c hab hbc => le_trans hbc hab⟩
    exact List.sorted_insertionSort _ lst

/-- Witness for the amended claim C8 at a one-domain tracker state. -/
theorem claim_c8_suspected_aggregators_witness :
    ∃ out, getSuspectedAggregators []
        { domain_counts := [("x.com".data, 1)],
          company_domains := [("x.com".data, ["A"])], total_searches := 1 } (1/10) = .ok out ∧
      (∀ d : List Char,
        (∃ e ∈ out, SuspectEntry.domain e = d) ↔
        ∃ c, (d, c) ∈ TrackerState.domain_counts
            { domain_counts := [("x.com".data, 1)],
              company_domains := [("x.com".data, ["A"])], total_searches := 1 } ∧
          ¬ d ∈ ([] : List (List Char)) ∧
          ¬ d ∈ identifyAggregators
            { domain_counts := [("x.com".data, 1)],
              company_domains := [("x.com".data, ["A"])], total_searches := 1 } (3/10) 3 ∧
          (1/10 : ℚ) ≤ (c : ℚ) / ((TrackerState.total_searches
            { domain_counts := [("x.com".data, 1)],
              company_domains := [("x.com".data, ["A"])], total_searches := 1 } : ℕ) : ℚ)) ∧
      out.Pairwise (fun a b => b.frequency ≤ a.frequency) :=
  claim_c8_suspected_aggregators []
    { domain_counts := [("x.com".data, 1)],
      company_domains := [("x.com".data, ["A"])], total_searches := 1 } (1/10) one_ne_zero

/-- Claim C8 counterexample: a domain seen once in one search has frequency
1.0 ≥ 0.3 but count 1 < 3, so it is not a confirmed aggregator; the code
returns it for `min_suspicion` = 0.1, yet its frequency is not in the claimed
interval [0.1, 0.3). -/
theorem claim_c8_counterexample :
    ∃ out, getSuspectedAggregators []
        { domain_counts := [("x.com".data, 1)],
          company_domains := [("x.com".data, ["A"])], total_searches := 1 } (1/10) = .ok out ∧
      ∃ e ∈ out, ¬ SuspectEntry.frequency e < 3/10 := by
  refine
    ⟨[{ domain := "x.com".data
        count := 1
        frequency := ((1:ℕ) : ℚ) / ((1:ℕ) : ℚ)
        companies := ["A"] }], ?_, ?_⟩
  · have h1 : suspectLoop ([] : List (List Char))
        { domain_counts := [("x.com".data, 1)],
          company_domains := [("x.com".data, ["A"])], total_searches := 1 } (1/10)
        [("x.com".data, 1)] =
        .ok [{ domain := "x.com".data
               count := 1
               frequency := ((1:ℕ) : ℚ) / ((1:ℕ) : ℚ)
               companies := ["A"] }] := by
      dsimp only [suspectLoop]
      rw [if_neg (by decide), if_neg (by decide)]
      rw [if_pos (by norm_num)]
      rfl
    unfold getSuspectedAggregators
    rw [h1]
    rfl
  · refine ⟨_, List.mem_cons_self _ _, ?_⟩
    norm_num

end CompanySift
